import Mathlib

/-!
Verification development for the Caliper annotation runtime core
(src/src/caliper/Caliper.cpp).

The file shallowly embeds the coordinator state machine of Caliper.cpp:
the node vector with its parent / first-child / next-sibling links, the
per-environment context store, the annotation operations begin / end / set,
the node lookup, the environment callback and the singleton accessors.

Modelling conventions:
- cali_id_t is a 64-bit unsigned integer; ids are Nat and the invalid id is
  2 ^ 64 - 1.
- Node payloads are byte lists (List Nat); payload equality is byte-exact.
- The intrusive first-child / next-sibling sibling chain of a node is
  represented as the list of child node indices in insertion order, which is
  exactly the order the chain is traversed and appended to in the source.
- A C++ pointer to a node is NPtr: null, the distinguished root node, or an
  index into the node vector.
- Undefined behaviour (an out-of-range vector access) is modelled by
  returning none from the affected operation.
- The classes Attribute, Context and Node are declared in headers that are
  not part of this repository snapshot; their operations are modelled from
  the specification, as marked on each definition.
-/

namespace Cali

/-- Invalid id sentinel (CALI_INV_ID, the all-ones 64-bit value). -/
def CALI_INV_ID : Nat := 2 ^ 64 - 1

/-- Error kinds returned by the annotation interface (cali_err). -/
inductive cali_err where
  | CALI_SUCCESS
  | CALI_EINV
deriving DecidableEq, Repr

/-- Modelled from the spec: attribute descriptor (class Attribute is not in
the snapshot). It carries the dense id and the two property flags consulted
by Caliper.cpp: store-as-value and global. Attribute identity is the id. -/
structure Attribute where
  id : Nat
  store_as_value : Bool
  is_global : Bool
deriving DecidableEq, Repr

/-- The invalid attribute sentinel. -/
def Attribute.invalid : Attribute := ⟨CALI_INV_ID, false, false⟩

/-- Modelled from the spec: a context slot is a 64-bit word together with the
discriminator distinguishing an inline scalar from a node reference. The
source stores a bare 64-bit word; which of the two it is, is determined by
the producing call site (scalar payload vs node id), which the embedding
records explicitly. -/
inductive CtxVal where
  | scalar (v : Nat)
  | noderef (v : Nat)
deriving DecidableEq, Repr

/-- The raw 64-bit word of a context slot, as the source sees it. -/
def CtxVal.slot : CtxVal → Nat
  | .scalar v => v
  | .noderef v => v

/-- Association list lookup (first match). -/
def lookupA {α β : Type} [DecidableEq α] : List (α × β) → α → Option β
  | [], _ => none
  | (k, v) :: t, x => if k = x then some v else lookupA t x

/-- Association list update: replace in place, or append when absent. -/
def updA {α β : Type} [DecidableEq α] : List (α × β) → α → β → List (α × β)
  | [], x, y => [(x, y)]
  | (k, v) :: t, x, y => if k = x then (x, y) :: t else (k, v) :: updA t x y

/-- Association list removal of every binding of a key. -/
def delA {α β : Type} [DecidableEq α] : List (α × β) → α → List (α × β)
  | [], _ => []
  | (k, v) :: t, x => if k = x then delA t x else (k, v) :: delA t x

/-- Modelled from the spec: the context store (class Context is not in the
snapshot). Per-environment entries are keyed by (environment, attribute id);
the process-wide global overlay is keyed by attribute id alone. -/
structure Context where
  env_local : List ((Nat × Nat) × CtxVal)
  globals : List (Nat × CtxVal)
deriving DecidableEq, Repr

/-- Modelled from the spec: entry resolution order is env-local first, then
the global overlay. -/
def ctxResolve (c : Context) (env key : Nat) : Option CtxVal :=
  match lookupA c.env_local (env, key) with
  | some v => some v
  | none => lookupA c.globals key

/-- Modelled from the spec: Context::get returns a (present, value) pair;
the value is the raw 64-bit word of the resolved slot. -/
def Context.get (c : Context) (env key : Nat) : Bool × Nat :=
  match ctxResolve c env key with
  | some v => (true, v.slot)
  | none => (false, 0)

/-- Modelled from the spec: Context::set writes into the global overlay when
is_global is set, and into the env-local map otherwise; last write wins. -/
def Context.set (c : Context) (env key : Nat) (val : CtxVal) (is_global : Bool) :
    cali_err × Context :=
  if is_global then (.CALI_SUCCESS, { c with globals := updA c.globals key val })
  else (.CALI_SUCCESS, { c with env_local := updA c.env_local (env, key) val })

/-- Modelled from the spec: Context::unset removes the env-local entry (the
global overlay is not touched); it reports invalid-argument when there was no
env-local entry to remove. -/
def Context.unset (c : Context) (env key : Nat) : cali_err × Context :=
  match lookupA c.env_local (env, key) with
  | some _ => (.CALI_SUCCESS, { c with env_local := delA c.env_local (env, key) })
  | none => (.CALI_EINV, c)

/-- Modelled from the spec: the packed snapshot of one environment, i.e. the
merged env-local and global view (env-local shadows), two 64-bit words per
entry: a tagged attribute id word and the slot word. -/
def Context.get_context (c : Context) (env : Nat) : List Nat :=
  let locals := c.env_local.filterMap
    (fun e => if e.1.1 = env then some (e.1.2, e.2) else none)
  let globs := (c.globals.filter
    (fun g => (lookupA c.env_local (env, g.1)).isNone))
  (locals ++ globs).flatMap
    (fun e => [2 * e.1 + (match e.2 with | .scalar _ => 1 | .noderef _ => 0), e.2.slot])

/-- Pointer to a node: null, the distinguished root node, or an index into
the node vector m_nodes. -/
inductive NPtr where
  | null
  | root
  | idx (i : Nat)
deriving DecidableEq, Repr

/-- Modelled from the spec: an annotation node (class Node is not in the
snapshot): dense id, attribute id, payload bytes, the parent pointer, and the
first-child / next-sibling chain represented as a child-index list in
insertion order. -/
structure Node where
  id : Nat
  attr : Nat
  data : List Nat
  parent : NPtr
  children : List Nat
deriving DecidableEq, Repr

/-- The state of CaliperImpl: the node vector, the children of the
distinguished root node m_root, the context store, the reader count of the
node lock m_nodelock, and the environment callback m_env_cb. The write side
of m_nodelock and the attribute lock have no unbalanced path and are not
tracked. -/
structure CaliperState where
  m_nodes : List Node
  m_root_children : List Nat
  m_context : Context
  m_nodelock_readers : Nat
  m_env_cb : Option (Unit → Nat)

/-- The state right after CaliperImpl construction: empty node vector, the
root node with no children, an empty context store. -/
def initCaliper : CaliperState :=
  { m_nodes := []
    m_root_children := []
    m_context := ⟨[], []⟩
    m_nodelock_readers := 0
    m_env_cb := none }

/-- List indexing used for the node vector. -/
def nth {α : Type} : List α → Nat → Option α
  | [], _ => none
  | x :: _, 0 => some x
  | _ :: t, n + 1 => nth t n

/-- The node stored at index i of the node vector. -/
def nodeAt (st : CaliperState) (i : Nat) : Option Node := nth st.m_nodes i

/-- The child-index list hanging off a node pointer (none for a null
pointer or a dangling index). -/
def CaliperState.childrenOf (st : CaliperState) : NPtr → Option (List Nat)
  | .root => some st.m_root_children
  | .idx i => (nodeAt st i).map Node.children
  | .null => none

/-- The sibling-chain search of begin and set: walk the chain and return the
first node matching Node::equals(attr, data, size), i.e. same attribute id
and byte-identical payload. A dangling child index is skipped; it cannot
occur in a well-formed state, where the chain is exactly a pointer chain. -/
def findChild (nodes : List Node) (key : Nat) (data : List Nat) : List Nat → Option Node
  | [] => none
  | c :: rest =>
    match nth nodes c with
    | some n => if n.attr = key ∧ n.data = data then some n else findChild nodes key data rest
    | none => findChild nodes key data rest

/-- The child-index list of a node pointer ([] for a null pointer, which is
never dereferenced by the source). -/
def childIds (st : CaliperState) (pp : NPtr) : List Nat := (st.childrenOf pp).getD []

/-- Replace the element at an index by applying f (identity off-range). -/
def updateNth {α : Type} : List α → Nat → (α → α) → List α
  | [], _, _ => []
  | x :: t, 0, f => f x :: t
  | x :: t, n + 1, f => x :: updateNth t n f

/-- CaliperImpl::create_node (Caliper.cpp lines 97-112): allocate the node
with id equal to the current size of the node vector and push it; the parent
link is null until the node is appended under a parent. The wlock/unlock
pair around the push is balanced and not tracked. -/
def CaliperImpl.create_node (st : CaliperState) (attr : Attribute) (data : List Nat) :
    Node × CaliperState :=
  let node : Node := ⟨st.m_nodes.length, attr.id, data, .null, []⟩
  (node, { st with m_nodes := st.m_nodes ++ [node] })

/-- Modelled from the spec: Node::append splices a child under a parent:
the child records its parent pointer and is appended at the end of the
sibling chain of the parent (sibling order is insertion order). -/
def CaliperState.append (st : CaliperState) (p : NPtr) (cid : Nat) : CaliperState :=
  let st1 := { st with m_nodes := updateNth st.m_nodes cid (fun n => { n with parent := p }) }
  match p with
  | .root => { st1 with m_root_children := st1.m_root_children ++ [cid] }
  | .idx j =>
    { st1 with m_nodes := updateNth st1.m_nodes j (fun n => { n with children := n.children ++ [cid] }) }
  | .null => st1

/-- Little-endian read of the first eight payload bytes, as the
memcpy(&val, data, sizeof(uint64_t)) of begin and set does. -/
def le64 (data : List Nat) : Nat :=
  (data.take 8).foldr (fun b acc => b % 256 + 256 * acc) 0

/-- The shared find-or-create sequence of begin and set (the two functions
contain the identical code): search the sibling chain of the parent under
the read lock, otherwise create the node and append it under the parent
under the write lock. The rlock/unlock pair around the search is balanced
on both paths (the reader count is incremented and restored with nothing
observing it in between), so it is not written out here. Returns the id of
the found or created node. -/
def findOrCreate (st : CaliperState) (pp : NPtr) (attr : Attribute) (data : List Nat) :
    Nat × CaliperState :=
  match findChild st.m_nodes attr.id data (childIds st pp) with
  | some n => (n.id, st)
  | none =>
    let r := CaliperImpl.create_node st attr data
    (r.1.id, r.2.append pp r.1.id)

/-- The common tail of the reference paths of begin and set: store the node
id of the found or created node as the context entry, routed by the global
property of the attribute. -/
def finishRef (env : Nat) (attr : Attribute) (r : Nat × CaliperState) :
    Option (cali_err × CaliperState) :=
  let r2 := r.2.m_context.set env attr.id (.noderef r.1) attr.is_global
  some (r2.1, { r.2 with m_context := r2.2 })

/-- CaliperImpl::begin (Caliper.cpp lines 128-170). The beginEvt callback
fires after the mutation and does not affect the state modelled here. -/
def CaliperImpl.begin (st : CaliperState) (env : Nat) (attr : Attribute) (data : List Nat) :
    Option (cali_err × CaliperState) :=
  if attr.id = CALI_INV_ID then some (.CALI_EINV, st)
  else if attr.store_as_value = true ∧ data.length = 8 then
    let r := st.m_context.set env attr.id (.scalar (le64 data)) attr.is_global
    some (r.1, { st with m_context := r.2 })
  else
    let p := st.m_context.get env attr.id
    if p.1 then
      if p.2 < st.m_nodes.length then
        finishRef env attr (findOrCreate st (.idx p.2) attr data)
      else none
    else
      finishRef env attr (findOrCreate st .root attr data)

/-- The parent-chain walk of CaliperImpl::end: while (node and the attribute
of node differs from key) node = node->parent(). The root carries the
invalid attribute and its parent is null. Fuel bounds the walk; none means
the fuel ran out or a dangling index was dereferenced, neither of which can
occur in a well-formed state. -/
def walkUp (nodes : List Node) (key : Nat) : Nat → NPtr → Option NPtr
  | 0, _ => none
  | _ + 1, .null => some .null
  | fuel + 1, .root => if CALI_INV_ID = key then some .root else walkUp nodes key fuel .null
  | fuel + 1, .idx i =>
    match nth nodes i with
    | none => none
    | some n => if n.attr = key then some (.idx i) else walkUp nodes key fuel n.parent

/-- CaliperImpl::end (Caliper.cpp lines 172-213). Named end_ because end is
a keyword. The reader count of the node lock is tracked faithfully: the
early return on the failed parent-chain walk leaves the lock held, exactly
as the source does. The endEvt callback fires after the mutation. -/
def CaliperImpl.end_ (st : CaliperState) (env : Nat) (attr : Attribute) :
    Option (cali_err × CaliperState) :=
  if attr.id = CALI_INV_ID then some (.CALI_EINV, st)
  else if attr.store_as_value = true then
    let r := st.m_context.unset env attr.id
    some (r.1, { st with m_context := r.2 })
  else
    let p := st.m_context.get env attr.id
    if p.1 then
      let st1 := { st with m_nodelock_readers := st.m_nodelock_readers + 1 }
      match walkUp st1.m_nodes attr.id (st1.m_nodes.length + 3) (.idx p.2) with
      | none => none
      | some .null => some (.CALI_EINV, st1)
      | some .root =>
        some (.CALI_EINV, { st1 with m_nodelock_readers := st1.m_nodelock_readers - 1 })
      | some (.idx i) =>
        match nodeAt st1 i with
        | none => none
        | some n =>
          let st2 := { st1 with m_nodelock_readers := st1.m_nodelock_readers - 1 }
          match n.parent with
          | .root =>
            let r := st2.m_context.unset env attr.id
            some (r.1, { st2 with m_context := r.2 })
          | .idx j =>
            match nodeAt st2 j with
            | none => none
            | some pn =>
              let r := st2.m_context.set env attr.id (.noderef pn.id) false
              some (r.1, { st2 with m_context := r.2 })
          | .null => some (.CALI_EINV, st2)
    else some (.CALI_EINV, st)

/-- CaliperImpl::set (Caliper.cpp lines 215-262). The setEvt callback fires
after the mutation. -/
def CaliperImpl.set (st : CaliperState) (env : Nat) (attr : Attribute) (data : List Nat) :
    Option (cali_err × CaliperState) :=
  if attr.id = CALI_INV_ID then some (.CALI_EINV, st)
  else if attr.store_as_value = true ∧ data.length = 8 then
    let r := st.m_context.set env attr.id (.scalar (le64 data)) attr.is_global
    some (r.1, { st with m_context := r.2 })
  else
    let p := st.m_context.get env attr.id
    if p.1 then
      match nodeAt st p.2 with
      | none => none
      | some n =>
        let pp := if n.parent = .null then NPtr.root else n.parent
        finishRef env attr (findOrCreate st pp attr data)
    else
      finishRef env attr (findOrCreate st .root attr data)

/-- CaliperImpl::get (Caliper.cpp lines 267-278): the bounds check tests
id > size, so id = size falls through to the unchecked vector access, which
is then out of range (modelled as none). For in-range ids the rlock/unlock
pair is balanced. some none is the null result of a caught out-of-range id. -/
def CaliperImpl.get (st : CaliperState) (id : Nat) : Option (Option Node) :=
  if id > st.m_nodes.length then some none
  else
    match nth st.m_nodes id with
    | some n => some (some n)
    | none => none

/-- Caliper::current_environment (Caliper.cpp lines 340-344): the installed
callback result, or 0 when no callback is installed. -/
def Caliper.current_environment (st : CaliperState) : Nat :=
  match st.m_env_cb with
  | some cb => cb ()
  | none => 0

/-- Caliper::set_environment_callback (Caliper.cpp lines 364-368). -/
def Caliper.set_environment_callback (st : CaliperState) (cb : Option (Unit → Nat)) :
    CaliperState :=
  { st with m_env_cb := cb }

/-- A fixed attribute registry: the descriptor each attribute id denotes.
Modelled from the spec: attribute properties are immutable after creation,
so a run of the coordinator sees one fixed map from id to descriptor. -/
def AttrMapWF (A : Nat → Attribute) : Prop := ∀ k, (A k).id = k

/-- The states reachable from the freshly constructed coordinator by any
sequence of begin / end / set operations over a fixed attribute registry. -/
inductive Reachable (A : Nat → Attribute) : CaliperState → Prop where
  | init : Reachable A initCaliper
  | stepBegin {st : CaliperState} {env key : Nat} {data : List Nat} {e : cali_err}
      {st' : CaliperState} : Reachable A st →
      CaliperImpl.begin st env (A key) data = some (e, st') → Reachable A st'
  | stepEnd {st : CaliperState} {env key : Nat} {e : cali_err} {st' : CaliperState} :
      Reachable A st →
      CaliperImpl.end_ st env (A key) = some (e, st') → Reachable A st'
  | stepSet {st : CaliperState} {env key : Nat} {data : List Nat} {e : cali_err}
      {st' : CaliperState} : Reachable A st →
      CaliperImpl.set st env (A key) data = some (e, st') → Reachable A st'

/-- The static singleton state: the one-way initialization flag s_siglock
(1 = uninitialized, 0 = initialized) and the singleton pointer s_caliper. -/
structure GlobalState where
  s_siglock : Nat
  s_caliper : Option Unit
deriving DecidableEq, Repr

/-- Which primitives an accessor invoked: whether it took the one-shot
initialization mutex s_mutex and whether it constructed the singleton. -/
structure AccessEffects where
  locked_mutex : Bool
  constructed : Bool
deriving DecidableEq, Repr

/-- Caliper::instance (Caliper.cpp lines 487-503): double-checked one-shot
construction; the flag transitions to 0 only after the singleton pointer is
set and initialized. Named instance_fn because instance is a keyword. -/
def Caliper.instance_fn (g : GlobalState) : Option Unit × GlobalState × AccessEffects :=
  if g.s_siglock = 1 then
    if g.s_caliper = none then (some (), ⟨0, some ()⟩, ⟨true, true⟩)
    else (g.s_caliper, g, ⟨true, false⟩)
  else (g.s_caliper, g, ⟨false, false⟩)

/-- Caliper::try_instance (Caliper.cpp lines 505-508): a single flag read;
no lock, no construction, no mutation. -/
def Caliper.try_instance (g : GlobalState) : Option Unit × GlobalState × AccessEffects :=
  (if g.s_siglock = 0 then g.s_caliper else none, g, ⟨false, false⟩)

/-- The singleton states reachable through Caliper::instance. -/
inductive GReachable : GlobalState → Prop where
  | init : GReachable ⟨1, none⟩
  | step {g : GlobalState} : GReachable g → GReachable (Caliper.instance_fn g).2.1

/-- The context entry a begin or set on (env, attr) writes: the global
overlay slot for a global attribute, the env-local slot otherwise. -/
def producedEntry (st : CaliperState) (env : Nat) (attr : Attribute) : Option CtxVal :=
  if attr.is_global = true then lookupA st.m_context.globals attr.id
  else lookupA st.m_context.env_local (env, attr.id)

/-- j lies on the parent chain of node index i (i itself included). -/
inductive InChain (st : CaliperState) : Nat → Nat → Prop where
  | refl (i : Nat) : InChain st i i
  | step {i j k : Nat} {n : Node} : nodeAt st i = some n → n.parent = .idx j →
      InChain st j k → InChain st i k

/-- Decidable well-formedness of one node slot: the parent pointer is the
root or an earlier index (so parent chains strictly descend and the walk of
end terminates), never null. -/
def parentOKAt (st : CaliperState) (i : Nat) : Bool :=
  match nodeAt st i with
  | none => true
  | some n =>
    match n.parent with
    | .root => true
    | .idx j => decide (j < i)
    | .null => false

/-- Decidable well-formedness of the resolved entry of (env, key): absent,
or a node reference into the node vector. -/
def entryRefOK (st : CaliperState) (env key : Nat) : Bool :=
  match ctxResolve st.m_context env key with
  | none => true
  | some (.scalar _) => false
  | some (.noderef i) => decide (i < st.m_nodes.length)

section AssocLemmas

variable {α β : Type} [DecidableEq α]

theorem lookupA_updA_self (l : List (α × β)) (k : α) (v : β) :
    lookupA (updA l k v) k = some v := by
  induction l with
  | nil => simp [updA, lookupA]
  | cons hd t ih =>
    obtain ⟨a, b⟩ := hd
    by_cases hk : a = k
    · simp [updA, hk, lookupA]
    · simpa [updA, hk, lookupA] using ih

theorem lookupA_updA_ne (l : List (α × β)) (k k' : α) (v : β) (h : k ≠ k') :
    lookupA (updA l k v) k' = lookupA l k' := by
  induction l with
  | nil => simp [updA, lookupA, h]
  | cons hd t ih =>
    obtain ⟨a, b⟩ := hd
    by_cases hk : a = k
    · subst hk
      simp [updA, lookupA, h]
    · by_cases hk' : a = k'
      · simp [updA, hk, lookupA, hk', Ne.symm h]
      · simpa [updA, hk, lookupA, hk'] using ih

theorem updA_of_lookupA (l : List (α × β)) (k : α) (v : β)
    (h : lookupA l k = some v) : updA l k v = l := by
  induction l with
  | nil => simp [lookupA] at h
  | cons hd t ih =>
    obtain ⟨a, b⟩ := hd
    by_cases hk : a = k
    · subst hk
      simp [lookupA] at h
      simp [updA, h]
    · simp [lookupA, hk] at h
      simp [updA, hk, ih h]

theorem updA_of_absent (l : List (α × β)) (k : α) (v : β)
    (h : lookupA l k = none) : updA l k v = l ++ [(k, v)] := by
  induction l with
  | nil => simp [updA]
  | cons hd t ih =>
    obtain ⟨a, b⟩ := hd
    by_cases hk : a = k
    · simp [lookupA, hk] at h
    · simp [lookupA, hk] at h
      simp [updA, hk, ih h]

theorem delA_of_absent (l : List (α × β)) (k : α)
    (h : lookupA l k = none) : delA l k = l := by
  induction l with
  | nil => simp [delA]
  | cons hd t ih =>
    obtain ⟨a, b⟩ := hd
    by_cases hk : a = k
    · simp [lookupA, hk] at h
    · simp [lookupA, hk] at h
      simp [delA, hk, ih h]

theorem delA_append_absent (l : List (α × β)) (k : α) (v : β)
    (h : lookupA l k = none) : delA (l ++ [(k, v)]) k = l := by
  induction l with
  | nil => simp [delA]
  | cons hd t ih =>
    obtain ⟨a, b⟩ := hd
    by_cases hk : a = k
    · simp [lookupA, hk] at h
    · simp [lookupA, hk] at h
      simp [delA, hk, ih h]

theorem lookupA_delA_ne (l : List (α × β)) (k k' : α) (h : k ≠ k') :
    lookupA (delA l k) k' = lookupA l k' := by
  induction l with
  | nil => simp [delA]
  | cons hd t ih =>
    obtain ⟨a, b⟩ := hd
    by_cases hk : a = k
    · subst hk
      simp [delA, lookupA, h, ih]
    · by_cases hk' : a = k'
      · simp [delA, hk, lookupA, hk', Ne.symm h]
      · simpa [delA, hk, lookupA, hk'] using ih

theorem lookupA_append_absent (l : List (α × β)) (k k' : α) (v : β)
    (h : lookupA l k' = none) :
    lookupA (l ++ [(k, v)]) k' = if k = k' then some v else none := by
  induction l with
  | nil => simp [lookupA]
  | cons hd t ih =>
    obtain ⟨a, b⟩ := hd
    by_cases hk : a = k'
    · simp [lookupA, hk] at h
    · simp [lookupA, hk] at h
      simpa [lookupA, hk] using ih h

end AssocLemmas

section NthLemmas

variable {α : Type}

theorem nth_lt {l : List α} {i : Nat} (h : i < l.length) : ∃ a, nth l i = some a := by
  induction l generalizing i with
  | nil => simp at h
  | cons x t ih =>
    cases i with
    | zero => exact ⟨x, rfl⟩
    | succ n => exact ih (Nat.lt_of_succ_lt_succ h)

theorem nth_some_lt {l : List α} {i : Nat} {a : α} (h : nth l i = some a) :
    i < l.length := by
  induction l generalizing i with
  | nil => simp [nth] at h
  | cons x t ih =>
    cases i with
    | zero => simp
    | succ n => exact Nat.succ_lt_succ (ih h)

theorem nth_append_lt {l l' : List α} {i : Nat} (h : i < l.length) :
    nth (l ++ l') i = nth l i := by
  induction l generalizing i with
  | nil => simp at h
  | cons x t ih =>
    cases i with
    | zero => rfl
    | succ n => exact ih (Nat.lt_of_succ_lt_succ h)

theorem nth_append_len (l : List α) (x : α) : nth (l ++ [x]) l.length = some x := by
  induction l with
  | nil => rfl
  | cons y t ih => simpa [nth] using ih

theorem nth_append_gt {l : List α} {x : α} {i : Nat} (h : l.length < i) :
    nth (l ++ [x]) i = none := by
  induction l generalizing i with
  | nil =>
    cases i with
    | zero => simp at h
    | succ n => rfl
  | cons y t ih =>
    cases i with
    | zero => simp at h
    | succ n => exact ih (Nat.lt_of_succ_lt_succ h)

theorem length_updateNth (l : List α) (i : Nat) (f : α → α) :
    (updateNth l i f).length = l.length := by
  induction l generalizing i with
  | nil => rfl
  | cons x t ih =>
    cases i with
    | zero => rfl
    | succ n => simpa [updateNth] using ih n

theorem nth_updateNth_self (l : List α) (i : Nat) (f : α → α) :
    nth (updateNth l i f) i = (nth l i).map f := by
  induction l generalizing i with
  | nil => cases i <;> rfl
  | cons x t ih =>
    cases i with
    | zero => rfl
    | succ n => simpa [updateNth, nth] using ih n

theorem nth_updateNth_ne (l : List α) {i j : Nat} (f : α → α) (h : i ≠ j) :
    nth (updateNth l i f) j = nth l j := by
  induction l generalizing i j with
  | nil => cases i <;> rfl
  | cons x t ih =>
    cases i with
    | zero =>
      cases j with
      | zero => exact absurd rfl h
      | succ m => rfl
    | succ n =>
      cases j with
      | zero => rfl
      | succ m => exact ih (fun hnm => h (congrArg Nat.succ hnm))

end NthLemmas

end Cali

namespace Cali

/-- The singleton invariant: the pointer is set exactly when the flag has
transitioned, and the flag only takes the values 1 and 0. -/
theorem greach_inv {g : GlobalState} (h : GReachable g) :
    (g.s_siglock = 0 → g.s_caliper = some ()) ∧ (g.s_siglock = 0 ∨ g.s_siglock = 1) := by
  induction h with
  | init => simp
  | step hg ih =>
    rename_i g'
    unfold Caliper.instance_fn
    by_cases h1 : g'.s_siglock = 1
    · by_cases h2 : g'.s_caliper = none
      · simp [h1, h2]
      · simp [h1, h2]
    · simp [h1]
      exact ⟨ih.1, ih.2.resolve_right h1⟩

/-- C8: try_instance returns the singleton exactly in states where the
one-way initialization flag s_siglock has transitioned to 0, and a null
result in every state before that; it performs no construction, takes no
mutex and mutates nothing. -/
theorem C8_try_instance (g : GlobalState) (hg : GReachable g) :
    ((Caliper.try_instance g).1 = some () ↔ g.s_siglock = 0) ∧
    ((Caliper.try_instance g).1 = none ↔ g.s_siglock ≠ 0) ∧
    (Caliper.try_instance g).2.1 = g ∧
    (Caliper.try_instance g).2.2.locked_mutex = false ∧
    (Caliper.try_instance g).2.2.constructed = false := by
  have hinv := greach_inv hg
  unfold Caliper.try_instance
  by_cases h0 : g.s_siglock = 0
  · simp [h0, hinv.1 h0]
  · simp [h0]

/-- Witness for C8 at the state reached by one instance() call. -/
theorem C8_try_instance_witness :
    GReachable (Caliper.instance_fn ⟨1, none⟩).2.1 ∧
    (((Caliper.try_instance (Caliper.instance_fn ⟨1, none⟩).2.1).1 = some () ↔
        (Caliper.instance_fn ⟨1, none⟩).2.1.s_siglock = 0) ∧
      ((Caliper.try_instance (Caliper.instance_fn ⟨1, none⟩).2.1).1 = none ↔
        (Caliper.instance_fn ⟨1, none⟩).2.1.s_siglock ≠ 0) ∧
      (Caliper.try_instance (Caliper.instance_fn ⟨1, none⟩).2.1).2.1 =
        (Caliper.instance_fn ⟨1, none⟩).2.1 ∧
      (Caliper.try_instance (Caliper.instance_fn ⟨1, none⟩).2.1).2.2.locked_mutex = false ∧
      (Caliper.try_instance (Caliper.instance_fn ⟨1, none⟩).2.1).2.2.constructed = false) :=
  ⟨GReachable.step GReachable.init,
    C8_try_instance (Caliper.instance_fn ⟨1, none⟩).2.1 (GReachable.step GReachable.init)⟩

/-- C10: current_environment returns 0 when no environment callback is
installed, and exactly the callback result once one is installed through
set_environment_callback. -/
theorem C10_current_environment (st : CaliperState) (f : Unit → Nat) :
    Caliper.current_environment { st with m_env_cb := none } = 0 ∧
    Caliper.current_environment
      (Caliper.set_environment_callback st (some f)) = f () :=
  ⟨rfl, rfl⟩

/-- C1 (code bug): the bounds check of get tests id > size instead of
id >= size. On the empty store, get(0) falls through the check and performs
the out-of-range vector access m_nodes[0] (modelled as none, i.e. undefined
behaviour) instead of returning the null result; ids strictly above the
size are caught and do return the null result (some none). -/
theorem C1_get_bounds_bug :
    initCaliper.m_nodes.length = 0 ∧
    CaliperImpl.get initCaliper 0 = none ∧
    CaliperImpl.get initCaliper 1 = some none :=
  ⟨rfl, rfl, rfl⟩

/-- A well-formed state exercising the failure path of end: the entry of
(env 0, attribute 1) references node 0, which carries attribute 2, and no
node on its parent chain carries attribute 1. -/
def c9state : CaliperState :=
  { m_nodes := [⟨0, 2, [], .root, []⟩]
    m_root_children := [0]
    m_context := ⟨[((0, 1), .noderef 0)], []⟩
    m_nodelock_readers := 0
    m_env_cb := none }

/-- C9 (code bug): end takes the node read lock, and on the path where no
node on the parent chain of the current node carries the requested
attribute it returns invalid-argument without releasing it: the reader
count of m_nodelock is 1 after the call started from 0. -/
theorem C9_end_leaks_read_lock :
    c9state.m_nodelock_readers = 0 ∧
    (CaliperImpl.end_ c9state 0 ⟨1, false, false⟩).map
      (fun r => (r.1, r.2.m_nodelock_readers)) = some (.CALI_EINV, 1) :=
  ⟨rfl, rfl⟩

/-- C2 is false as stated: a begin on a store-as-value attribute with a
payload whose length is not 8 bytes takes the reference path, creates a
tree node and binds a node-reference entry, not an inline scalar entry. -/
theorem C2_counterexample :
    (CaliperImpl.begin initCaliper 0 ⟨1, true, false⟩ [1, 2, 3]).map
      (fun r => (r.1, producedEntry r.2 0 ⟨1, true, false⟩, r.2.m_nodes.length)) =
    some (.CALI_SUCCESS, some (.noderef 0), 1) := rfl

/-- The entry finishRef writes is the node reference it was handed. -/
theorem finishRef_entry {env : Nat} {attr : Attribute} {r : Nat × CaliperState}
    {e : cali_err} {st' : CaliperState} (h : finishRef env attr r = some (e, st')) :
    producedEntry st' env attr = some (.noderef r.1) := by
  simp only [finishRef, Context.set, Option.some.injEq, Prod.mk.injEq] at h
  cases hg : attr.is_global with
  | true =>
    rw [hg] at h
    simp at h
    rw [← h.2]
    simp [producedEntry, hg, lookupA_updA_self]
  | false =>
    rw [hg] at h
    simp at h
    rw [← h.2]
    simp [producedEntry, hg, lookupA_updA_self]

/-- C2 (amended): for a valid store-as-value attribute, begin and set write
an inline scalar entry exactly when the payload length is 8 bytes; for any
other payload length both fall through to the reference path and bind a
node-reference entry. -/
theorem C2_amended (st : CaliperState) (env : Nat) (attr : Attribute) (data : List Nat)
    (e1 e2 : cali_err) (st1 st2 : CaliperState)
    (hsv : attr.store_as_value = true) (hid : attr.id ≠ CALI_INV_ID)
    (hb : CaliperImpl.begin st env attr data = some (e1, st1))
    (hs : CaliperImpl.set st env attr data = some (e2, st2)) :
    (data.length = 8 →
      producedEntry st1 env attr = some (.scalar (le64 data)) ∧
      producedEntry st2 env attr = some (.scalar (le64 data))) ∧
    (data.length ≠ 8 →
      (∃ i, producedEntry st1 env attr = some (.noderef i)) ∧
      (∃ j, producedEntry st2 env attr = some (.noderef j))) := by
  by_cases h8 : data.length = 8
  · refine ⟨fun _ => ?_, fun hne => absurd h8 hne⟩
    simp only [CaliperImpl.begin, if_neg hid, if_pos (And.intro hsv h8),
      Option.some.injEq, Prod.mk.injEq] at hb
    simp only [CaliperImpl.set, if_neg hid, if_pos (And.intro hsv h8),
      Option.some.injEq, Prod.mk.injEq] at hs
    rw [← hb.2, ← hs.2]
    constructor <;>
      cases hg : attr.is_global <;>
        simp [producedEntry, Context.set, hg, lookupA_updA_self]
  · refine ⟨fun h8' => absurd h8' h8, fun _ => ?_⟩
    have hc : ¬(attr.store_as_value = true ∧ data.length = 8) := fun hc => h8 hc.2
    simp only [CaliperImpl.begin, if_neg hid, if_neg hc] at hb
    simp only [CaliperImpl.set, if_neg hid, if_neg hc] at hs
    constructor
    · split at hb
      · split at hb
        · exact ⟨_, finishRef_entry hb⟩
        · simp at hb
      · exact ⟨_, finishRef_entry hb⟩
    · split at hs
      · split at hs
        · simp at hs
        · exact ⟨_, finishRef_entry hs⟩
      · exact ⟨_, finishRef_entry hs⟩

/-- The state after the begin of the C2 witness. -/
def c2st1 : CaliperState :=
  { m_nodes := [⟨0, 1, [1, 2, 3], .root, []⟩]
    m_root_children := [0]
    m_context := ⟨[((0, 1), .noderef 0)], []⟩
    m_nodelock_readers := 0
    m_env_cb := none }

/-- Witness for C2 (amended) at a concrete 3-byte payload. -/
theorem C2_amended_witness :
    (⟨1, true, false⟩ : Attribute).store_as_value = true ∧
    (⟨1, true, false⟩ : Attribute).id ≠ CALI_INV_ID ∧
    CaliperImpl.begin initCaliper 0 ⟨1, true, false⟩ [1, 2, 3] = some (.CALI_SUCCESS, c2st1) ∧
    CaliperImpl.set initCaliper 0 ⟨1, true, false⟩ [1, 2, 3] = some (.CALI_SUCCESS, c2st1) ∧
    (([1, 2, 3] : List Nat).length = 8 →
      producedEntry c2st1 0 ⟨1, true, false⟩ = some (.scalar (le64 [1, 2, 3])) ∧
      producedEntry c2st1 0 ⟨1, true, false⟩ = some (.scalar (le64 [1, 2, 3]))) ∧
    (([1, 2, 3] : List Nat).length ≠ 8 →
      (∃ i, producedEntry c2st1 0 ⟨1, true, false⟩ = some (.noderef i)) ∧
      (∃ j, producedEntry c2st1 0 ⟨1, true, false⟩ = some (.noderef j))) :=
  ⟨rfl, by decide, rfl, rfl,
    C2_amended initCaliper 0 ⟨1, true, false⟩ [1, 2, 3] .CALI_SUCCESS .CALI_SUCCESS
      c2st1 c2st1 rfl (by decide) rfl rfl⟩

/-- The registry of the C3 counterexample: every attribute is
store-as-value and not global. -/
def A_sv : Nat → Attribute := fun k => ⟨k, true, false⟩

/-- The reachable state with the inline entry 7 for (env 0, attribute 1). -/
def c3st1 : CaliperState :=
  { m_nodes := []
    m_root_children := []
    m_context := ⟨[((0, 1), .scalar 7)], []⟩
    m_nodelock_readers := 0
    m_env_cb := none }

/-- C3 is false as stated: in the reachable state holding the inline entry
7 for the store-as-value attribute 1, a begin with payload 9 followed by an
end does not restore the entry: begin overwrites the inline slot and end
unsets it, so the entry and the snapshot end up empty, not at 7. -/
theorem C3_counterexample :
    CaliperImpl.begin initCaliper 0 (A_sv 1) [7, 0, 0, 0, 0, 0, 0, 0] =
      some (.CALI_SUCCESS, c3st1) ∧
    Reachable A_sv c3st1 ∧
    lookupA c3st1.m_context.env_local (0, 1) = some (.scalar 7) ∧
    c3st1.m_context.get_context 0 = [3, 7] ∧
    ((CaliperImpl.begin c3st1 0 (A_sv 1) [9, 0, 0, 0, 0, 0, 0, 0]).bind
        (fun r => CaliperImpl.end_ r.2 0 (A_sv 1))).map
      (fun r => (lookupA r.2.m_context.env_local (0, 1), r.2.m_context.get_context 0)) =
    some (none, []) :=
  ⟨rfl,
    @Reachable.stepBegin A_sv initCaliper 0 1 [7, 0, 0, 0, 0, 0, 0, 0] .CALI_SUCCESS c3st1
      Reachable.init rfl,
    rfl, rfl, rfl⟩

/-- The registry of the C5 counterexample: every attribute is global and
not store-as-value. -/
def A_gl : Nat → Attribute := fun k => ⟨k, false, true⟩

/-- The reachable state with the global-overlay entry for attribute 1. -/
def c5st1 : CaliperState :=
  { m_nodes := [⟨0, 1, [65], .root, []⟩]
    m_root_children := [0]
    m_context := ⟨[], [(1, .noderef 0)]⟩
    m_nodelock_readers := 0
    m_env_cb := none }

/-- C5 is false as stated: after a begin on a valid global attribute, the
(env, attr) entry exists (it resolves to node 0, which itself carries the
attribute, so the parent-chain condition holds as well), yet end fails with
invalid-argument, because it unsets the env-local map and the entry lives
only in the global overlay. -/
theorem C5_counterexample :
    CaliperImpl.begin initCaliper 0 (A_gl 1) [65] = some (.CALI_SUCCESS, c5st1) ∧
    Reachable A_gl c5st1 ∧
    ctxResolve c5st1.m_context 0 1 = some (.noderef 0) ∧
    nodeAt c5st1 0 = some ⟨0, 1, [65], .root, []⟩ ∧
    (CaliperImpl.end_ c5st1 0 (A_gl 1)).map (fun r => r.1) = some .CALI_EINV :=
  ⟨rfl,
    @Reachable.stepBegin A_gl initCaliper 0 1 [65] .CALI_SUCCESS c5st1 Reachable.init rfl,
    rfl, rfl, rfl⟩

end Cali

namespace Cali

section MoreListLemmas

variable {α : Type}

theorem updateNth_append_len (l : List α) (x : α) (f : α → α) :
    updateNth (l ++ [x]) l.length f = l ++ [f x] := by
  induction l with
  | nil => rfl
  | cons y t ih => simpa [updateNth] using ih

theorem updateNth_append_lt (l : List α) (x : α) {j : Nat} (f : α → α) (h : j < l.length) :
    updateNth (l ++ [x]) j f = updateNth l j f ++ [x] := by
  induction l generalizing j with
  | nil => simp at h
  | cons y t ih =>
    cases j with
    | zero => rfl
    | succ n => simpa [updateNth] using ih (Nat.lt_of_succ_lt_succ h)

end MoreListLemmas

/-- Two indices of the node vector do not carry the same (attribute id,
payload) pair. -/
def distinctKeys (nodes : List Node) (a b : Nat) : Prop :=
  ∀ na nb, nth nodes a = some na → nth nodes b = some nb →
    ¬(na.attr = nb.attr ∧ na.data = nb.data)

theorem distinctKeys_symm (nodes : List Node) : Symmetric (distinctKeys nodes) := by
  intro a b h na nb hna hnb hk
  exact h nb na hnb hna ⟨hk.1.symm, hk.2.symm⟩

/-- The state invariant maintained by every begin / end / set step over a
fixed attribute registry A:
ids are dense; parent pointers go to the root or to a strictly earlier
index; the child lists and the parent pointers describe the same relation;
sibling lists carry pairwise distinct (attribute, payload) keys; context
slots are scalars only for store-as-value attributes, node references are
in range, and the global overlay only holds entries of global attributes. -/
structure Inv (A : Nat → Attribute) (st : CaliperState) : Prop where
  ids : ∀ {i : Nat} {n : Node}, nth st.m_nodes i = some n → n.id = i
  parents : ∀ {i : Nat} {n : Node}, nth st.m_nodes i = some n →
    n.parent = .root ∨ ∃ j, n.parent = .idx j ∧ j < i
  rootkids : ∀ {c : Nat}, c ∈ st.m_root_children →
    ∃ n, nth st.m_nodes c = some n ∧ n.parent = .root
  kids : ∀ {i : Nat} {pn : Node} {c : Nat}, nth st.m_nodes i = some pn → c ∈ pn.children →
    ∃ n, nth st.m_nodes c = some n ∧ n.parent = .idx i
  par_root : ∀ {c : Nat} {n : Node}, nth st.m_nodes c = some n → n.parent = .root →
    c ∈ st.m_root_children
  par_idx : ∀ {c : Nat} {n : Node} {j : Nat}, nth st.m_nodes c = some n → n.parent = .idx j →
    ∃ pn, nth st.m_nodes j = some pn ∧ c ∈ pn.children
  dedup_root : st.m_root_children.Pairwise (distinctKeys st.m_nodes)
  dedup_kids : ∀ {i : Nat} {pn : Node}, nth st.m_nodes i = some pn →
    pn.children.Pairwise (distinctKeys st.m_nodes)
  ctx_local : ∀ {env key : Nat} {v : CtxVal},
    lookupA st.m_context.env_local (env, key) = some v →
    ((A key).store_as_value = true ∧ ∃ x, v = .scalar x) ∨
      ∃ i, v = .noderef i ∧ i < st.m_nodes.length
  ctx_global : ∀ {key : Nat} {v : CtxVal}, lookupA st.m_context.globals key = some v →
    (A key).is_global = true ∧
      (((A key).store_as_value = true ∧ ∃ x, v = .scalar x) ∨
        ∃ i, v = .noderef i ∧ i < st.m_nodes.length)

/-- The freshly constructed coordinator satisfies the invariant. -/
theorem inv_init (A : Nat → Attribute) : Inv A initCaliper := by
  constructor <;> intros <;> simp_all [initCaliper, nth, lookupA]

/-- A successful sibling search returns a chain member with the searched
key. -/
theorem findChild_some {nodes : List Node} {key : Nat} {data : List Nat} {cs : List Nat}
    {n : Node} (h : findChild nodes key data cs = some n) :
    ∃ c, c ∈ cs ∧ nth nodes c = some n ∧ n.attr = key ∧ n.data = data := by
  induction cs with
  | nil => simp [findChild] at h
  | cons c rest ih =>
    unfold findChild at h
    split at h
    · rename_i m hc
      split at h
      · rename_i hk
        cases h
        exact ⟨c, List.mem_cons_self c rest, hc, hk⟩
      · obtain ⟨c', hm, hn, hk'⟩ := ih h
        exact ⟨c', List.mem_cons_of_mem c hm, hn, hk'⟩
    · obtain ⟨c', hm, hn, hk⟩ := ih h
      exact ⟨c', List.mem_cons_of_mem c hm, hn, hk⟩

/-- A failed sibling search means no chain member carries the key. -/
theorem findChild_none {nodes : List Node} {key : Nat} {data : List Nat} {cs : List Nat}
    (h : findChild nodes key data cs = none) :
    ∀ c ∈ cs, ∀ n, nth nodes c = some n → ¬(n.attr = key ∧ n.data = data) := by
  induction cs with
  | nil => simp
  | cons c rest ih =>
    intro c' hc' n hn hk
    unfold findChild at h
    split at h
    · rename_i m hc
      split at h
      · cases h
      · rename_i hkm
        rcases List.mem_cons.mp hc' with hcc | hmem
        · subst hcc
          rw [hn] at hc
          cases hc
          exact hkm hk
        · exact ih h c' hmem n hn hk
    · rename_i hc
      rcases List.mem_cons.mp hc' with hcc | hmem
      · subst hcc
        rw [hn] at hc
        cases hc
      · exact ih h c' hmem n hn hk

/-- On a chain with pairwise distinct keys, a member carrying the key is
found by the search. -/
theorem findChild_of_mem {nodes : List Node} {key : Nat} {data : List Nat} {cs : List Nat}
    {c : Nat} {n : Node} (hnd : cs.Pairwise (distinctKeys nodes)) (hc : c ∈ cs)
    (hn : nth nodes c = some n) (ha : n.attr = key) (hd : n.data = data) :
    findChild nodes key data cs = some n := by
  induction cs with
  | nil => simp at hc
  | cons c0 rest ih =>
    rcases List.mem_cons.mp hc with hcc | hmem
    · subst hcc
      unfold findChild
      rw [hn]
      exact if_pos ⟨ha, hd⟩
    · unfold findChild
      have hrest : findChild nodes key data rest = some n :=
        ih (List.Pairwise.of_cons hnd) hmem
      split
      · rename_i m hc0
        split
        · rename_i hkm
          exfalso
          have hdk : distinctKeys nodes c0 c := (List.pairwise_cons.mp hnd).1 c hmem
          exact hdk m n hc0 hn ⟨hkm.1.trans ha.symm, hkm.2.trans hd.symm⟩
        · exact hrest
      · exact hrest

end Cali

namespace Cali

/-- Pairwise transfer along a pointwise implication restricted to members. -/
theorem pairwise_imp_mem {α : Type} {R S : α → α → Prop} :
    ∀ {l : List α}, (∀ a b, a ∈ l → b ∈ l → R a b → S a b) → l.Pairwise R → l.Pairwise S := by
  intro l
  induction l with
  | nil => intro _ _; exact List.Pairwise.nil
  | cons x t ih =>
    intro H hp
    rcases List.pairwise_cons.mp hp with ⟨hx, ht⟩
    refine List.pairwise_cons.mpr ⟨fun b hb => ?_, ?_⟩
    · exact H x b (List.mem_cons_self x t) (List.mem_cons_of_mem x hb) (hx b hb)
    · exact ih (fun a b ha hb => H a b (List.mem_cons_of_mem x ha) (List.mem_cons_of_mem x hb)) ht

/-- When the sibling search succeeds, findOrCreate returns the found node
unchanged: it is a child of the given parent carrying the searched key, and
the state is untouched. -/
theorem findOrCreate_found {A : Nat → Attribute} {st : CaliperState} {pp : NPtr}
    {attr : Attribute} {data : List Nat} {n : Node} (hinv : Inv A st)
    (hpp : pp = .root ∨ ∃ i, pp = .idx i ∧ i < st.m_nodes.length)
    (hfc : findChild st.m_nodes attr.id data (childIds st pp) = some n) :
    findOrCreate st pp attr data = (n.id, st) ∧
    nth st.m_nodes n.id = some n ∧ n.attr = attr.id ∧ n.data = data ∧ n.parent = pp ∧
    n.id < st.m_nodes.length ∧ n.id ∈ childIds st pp := by
  obtain ⟨c, hcmem, hcn, hattr, hdata⟩ := findChild_some hfc
  have hidc : n.id = c := hinv.ids hcn
  have hpar : n.parent = pp := by
    rcases hpp with hroot | ⟨i, hi, hilt⟩
    · subst hroot
      have hrc : c ∈ st.m_root_children := hcmem
      obtain ⟨n', hn', hp'⟩ := hinv.rootkids hrc
      rw [hcn] at hn'
      cases hn'
      exact hp'
    · subst hi
      obtain ⟨pn, hpn⟩ := nth_lt hilt
      have hcs : childIds st (.idx i) = pn.children := by
        simp [childIds, CaliperState.childrenOf, nodeAt, hpn]
      rw [hcs] at hcmem
      obtain ⟨n', hn', hp'⟩ := hinv.kids hpn hcmem
      rw [hcn] at hn'
      cases hn'
      exact hp'
  refine ⟨?_, ?_, hattr, hdata, hpar, ?_, ?_⟩
  · unfold findOrCreate
    rw [hfc]
  · rw [hidc]
    exact hcn
  · rw [hidc]
    exact nth_some_lt hcn
  · rw [hidc]
    exact hcmem

end Cali

namespace Cali

/-- When the sibling search fails, findOrCreate creates the node with the
next dense id, splices it under the parent, and preserves every existing
node and the whole invariant. -/
theorem findOrCreate_create {A : Nat → Attribute} {st : CaliperState} {pp : NPtr}
    {attr : Attribute} {data : List Nat} (hinv : Inv A st)
    (hpp : pp = .root ∨ ∃ i, pp = .idx i ∧ i < st.m_nodes.length)
    (hfc : findChild st.m_nodes attr.id data (childIds st pp) = none) :
    ∃ st', findOrCreate st pp attr data = (st.m_nodes.length, st') ∧
      st'.m_context = st.m_context ∧
      st'.m_nodelock_readers = st.m_nodelock_readers ∧
      st'.m_env_cb = st.m_env_cb ∧
      st'.m_root_children = (match pp with
        | .root => st.m_root_children ++ [st.m_nodes.length]
        | _ => st.m_root_children) ∧
      st'.m_nodes.length = st.m_nodes.length + 1 ∧
      Inv A st' ∧
      nth st'.m_nodes st.m_nodes.length =
        some ⟨st.m_nodes.length, attr.id, data, pp, []⟩ ∧
      (∀ i m, nth st.m_nodes i = some m → ∃ m', nth st'.m_nodes i = some m' ∧
        m'.id = m.id ∧ m'.attr = m.attr ∧ m'.data = m.data ∧ m'.parent = m.parent) := by
  rcases hpp with hroot | ⟨j, hjeq, hjlt⟩
  · subst hroot
    refine ⟨{ st with
        m_nodes := st.m_nodes ++ [⟨st.m_nodes.length, attr.id, data, .root, []⟩],
        m_root_children := st.m_root_children ++ [st.m_nodes.length] },
      ?_, rfl, rfl, rfl, rfl, by simp, ?_, nth_append_len _ _, ?_⟩
    · unfold findOrCreate CaliperImpl.create_node CaliperState.append
      simp only [hfc]
      simp [updateNth_append_len]
    · -- the invariant for the root-append case
      have hnomatch : ∀ c ∈ st.m_root_children, ∀ n, nth st.m_nodes c = some n →
          ¬(n.attr = attr.id ∧ n.data = data) := findChild_none hfc
      have hfwd : ∀ {i : Nat} {m : Node}, nth st.m_nodes i = some m →
          nth (st.m_nodes ++ [⟨st.m_nodes.length, attr.id, data, .root, []⟩]) i = some m := by
        intro i m h
        rw [nth_append_lt (nth_some_lt h)]
        exact h
      have hcases : ∀ {i : Nat} {m : Node},
          nth (st.m_nodes ++ [⟨st.m_nodes.length, attr.id, data, .root, []⟩]) i = some m →
          nth st.m_nodes i = some m ∨
            (i = st.m_nodes.length ∧ m = ⟨st.m_nodes.length, attr.id, data, .root, []⟩) := by
        intro i m h
        by_cases h1 : i < st.m_nodes.length
        · rw [nth_append_lt h1] at h
          exact .inl h
        · by_cases h2 : i = st.m_nodes.length
          · subst h2
            rw [nth_append_len] at h
            cases h
            exact .inr ⟨rfl, rfl⟩
          · rw [nth_append_gt (by omega)] at h
            cases h
      have hdkt : ∀ a b : Nat, a < st.m_nodes.length → b < st.m_nodes.length →
          distinctKeys st.m_nodes a b →
          distinctKeys (st.m_nodes ++ [⟨st.m_nodes.length, attr.id, data, .root, []⟩]) a b := by
        intro a b ha hb h na nb hna hnb
        rw [nth_append_lt ha] at hna
        rw [nth_append_lt hb] at hnb
        exact h na nb hna hnb
      refine { ids := ?_, parents := ?_, rootkids := ?_, kids := ?_, par_root := ?_,
               par_idx := ?_, dedup_root := ?_, dedup_kids := ?_,
               ctx_local := ?_, ctx_global := ?_ }
      · intro i n h
        rcases hcases h with hold | ⟨hi, hn⟩
        · exact hinv.ids hold
        · subst hn
          exact hi.symm
      · intro i n h
        rcases hcases h with hold | ⟨hi, hn⟩
        · exact hinv.parents hold
        · subst hn
          exact .inl rfl
      · intro c hc
        rcases List.mem_append.mp hc with hold | hnew
        · obtain ⟨n, hn, hp⟩ := hinv.rootkids hold
          exact ⟨n, hfwd hn, hp⟩
        · rcases List.mem_singleton.mp hnew with rfl
          exact ⟨_, nth_append_len _ _, rfl⟩
      · intro i pn c h hc
        rcases hcases h with hold | ⟨hi, hn⟩
        · obtain ⟨n, hn, hp⟩ := hinv.kids hold hc
          exact ⟨n, hfwd hn, hp⟩
        · subst hn
          simp at hc
      · intro c n h hp
        rcases hcases h with hold | ⟨hi, hn⟩
        · exact List.mem_append_left _ (hinv.par_root hold hp)
        · subst hi
          exact List.mem_append_right _ (List.mem_singleton.mpr rfl)
      · intro c n j h hp
        rcases hcases h with hold | ⟨hi, hn⟩
        · obtain ⟨pn, hpn, hm⟩ := hinv.par_idx hold hp
          exact ⟨pn, hfwd hpn, hm⟩
        · subst hn
          cases hp
      · rw [List.pairwise_append]
        refine ⟨?_, List.pairwise_singleton _ _, ?_⟩
        · refine pairwise_imp_mem (fun a b ha hb h => ?_) hinv.dedup_root
          obtain ⟨na, hna, -⟩ := hinv.rootkids ha
          obtain ⟨nb, hnb, -⟩ := hinv.rootkids hb
          exact hdkt a b (nth_some_lt hna) (nth_some_lt hnb) h
        · intro a ha b hb
          rcases List.mem_singleton.mp hb with rfl
          intro na nb hna hnb hk
          obtain ⟨ma, hma, -⟩ := hinv.rootkids ha
          rw [nth_append_lt (nth_some_lt hma)] at hna
          rw [nth_append_len] at hnb
          cases hnb
          exact hnomatch a ha na hna hk
      · intro i pn h
        rcases hcases h with hold | ⟨hi, hn⟩
        · refine pairwise_imp_mem (fun a b ha hb hd => ?_) (hinv.dedup_kids hold)
          obtain ⟨na, hna, -⟩ := hinv.kids hold ha
          obtain ⟨nb, hnb, -⟩ := hinv.kids hold hb
          exact hdkt a b (nth_some_lt hna) (nth_some_lt hnb) hd
        · subst hn
          exact List.Pairwise.nil
      · intro env key v h
        rcases hinv.ctx_local h with hl | ⟨i, hv, hlt⟩
        · exact .inl hl
        · exact .inr ⟨i, hv, by simp; omega⟩
      · intro key v h
        obtain ⟨hg, hrest⟩ := hinv.ctx_global h
        refine ⟨hg, ?_⟩
        rcases hrest with hl | ⟨i, hv, hlt⟩
        · exact .inl hl
        · exact .inr ⟨i, hv, by simp; omega⟩
    · intro i m hm
      exact ⟨m, by rw [nth_append_lt (nth_some_lt hm)]; exact hm, rfl, rfl, rfl, rfl⟩
  · -- the append-under-node case
    subst hjeq
    obtain ⟨pj, hpj⟩ := nth_lt hjlt
    have hcs : childIds st (.idx j) = pj.children := by
      simp [childIds, CaliperState.childrenOf, nodeAt, hpj]
    have hnomatch : ∀ c ∈ pj.children, ∀ n, nth st.m_nodes c = some n →
        ¬(n.attr = attr.id ∧ n.data = data) := by
      rw [hcs] at hfc
      exact findChild_none hfc
    have hbaselen :
        (updateNth st.m_nodes j
          (fun n => { n with children := n.children ++ [st.m_nodes.length] })).length =
        st.m_nodes.length := length_updateNth _ _ _
    have hnth_j : nth (updateNth st.m_nodes j
          (fun n => { n with children := n.children ++ [st.m_nodes.length] }) ++
          [⟨st.m_nodes.length, attr.id, data, .idx j, []⟩]) j =
        some { pj with children := pj.children ++ [st.m_nodes.length] } := by
      rw [nth_append_lt (by omega), nth_updateNth_self, hpj]
      rfl
    have hnth_len : nth (updateNth st.m_nodes j
          (fun n => { n with children := n.children ++ [st.m_nodes.length] }) ++
          [⟨st.m_nodes.length, attr.id, data, .idx j, []⟩]) st.m_nodes.length =
        some ⟨st.m_nodes.length, attr.id, data, .idx j, []⟩ := by
      have := nth_append_len (updateNth st.m_nodes j
          (fun n => { n with children := n.children ++ [st.m_nodes.length] }))
        (⟨st.m_nodes.length, attr.id, data, .idx j, []⟩ : Node)
      rwa [hbaselen] at this
    have hnth_ne : ∀ i : Nat, i ≠ j → i < st.m_nodes.length →
        nth (updateNth st.m_nodes j
          (fun n => { n with children := n.children ++ [st.m_nodes.length] }) ++
          [⟨st.m_nodes.length, attr.id, data, .idx j, []⟩]) i = nth st.m_nodes i := by
      intro i hij hilt
      rw [nth_append_lt (by omega)]
      exact nth_updateNth_ne _ _ (fun h => hij h.symm)
    have hfwd : ∀ {i : Nat} {m : Node}, nth st.m_nodes i = some m →
        ∃ m', nth (updateNth st.m_nodes j
          (fun n => { n with children := n.children ++ [st.m_nodes.length] }) ++
          [⟨st.m_nodes.length, attr.id, data, .idx j, []⟩]) i = some m' ∧
          m'.id = m.id ∧ m'.attr = m.attr ∧ m'.data = m.data ∧ m'.parent = m.parent ∧
          m.children ⊆ m'.children := by
      intro i m h
      by_cases hij : i = j
      · subst hij
        rw [hpj] at h
        cases h
        exact ⟨_, hnth_j, rfl, rfl, rfl, rfl, List.subset_append_left _ _⟩
      · exact ⟨m, by rw [hnth_ne i hij (nth_some_lt h)]; exact h, rfl, rfl, rfl, rfl,
          List.Subset.refl _⟩
    have hbwd : ∀ {i : Nat} {m' : Node},
        nth (updateNth st.m_nodes j
          (fun n => { n with children := n.children ++ [st.m_nodes.length] }) ++
          [⟨st.m_nodes.length, attr.id, data, .idx j, []⟩]) i = some m' →
        (i = st.m_nodes.length ∧ m' = ⟨st.m_nodes.length, attr.id, data, .idx j, []⟩) ∨
        (i = j ∧ m' = { pj with children := pj.children ++ [st.m_nodes.length] }) ∨
        (i ≠ j ∧ i < st.m_nodes.length ∧ nth st.m_nodes i = some m') := by
      intro i m' h
      by_cases h1 : i < st.m_nodes.length
      · by_cases hij : i = j
        · subst hij
          rw [hnth_j] at h
          cases h
          exact .inr (.inl ⟨rfl, rfl⟩)
        · rw [hnth_ne i hij h1] at h
          exact .inr (.inr ⟨hij, h1, h⟩)
      · by_cases h2 : i = st.m_nodes.length
        · subst h2
          rw [hnth_len] at h
          cases h
          exact .inl ⟨rfl, rfl⟩
        · rw [nth_append_gt (by omega)] at h
          cases h
    have hbwdKey : ∀ {i : Nat} {m' : Node},
        nth (updateNth st.m_nodes j
          (fun n => { n with children := n.children ++ [st.m_nodes.length] }) ++
          [⟨st.m_nodes.length, attr.id, data, .idx j, []⟩]) i = some m' →
        i < st.m_nodes.length →
        ∃ m, nth st.m_nodes i = some m ∧ m'.attr = m.attr ∧ m'.data = m.data := by
      intro i m' h hlt
      rcases hbwd h with ⟨hi, -⟩ | ⟨hi, hm⟩ | ⟨-, -, hold⟩
      · omega
      · subst hi
        subst hm
        exact ⟨pj, hpj, rfl, rfl⟩
      · exact ⟨m', hold, rfl, rfl⟩
    have hdkt : ∀ a b : Nat, a < st.m_nodes.length → b < st.m_nodes.length →
        distinctKeys st.m_nodes a b →
        distinctKeys (updateNth st.m_nodes j
          (fun n => { n with children := n.children ++ [st.m_nodes.length] }) ++
          [⟨st.m_nodes.length, attr.id, data, .idx j, []⟩]) a b := by
      intro a b ha hb h na nb hna hnb hk
      obtain ⟨ma, hma, ha1, ha2⟩ := hbwdKey hna ha
      obtain ⟨mb, hmb, hb1, hb2⟩ := hbwdKey hnb hb
      exact h ma mb hma hmb ⟨by rw [← ha1, ← hb1]; exact hk.1, by rw [← ha2, ← hb2]; exact hk.2⟩
    refine ⟨{ st with
        m_nodes := updateNth st.m_nodes j
            (fun n => { n with children := n.children ++ [st.m_nodes.length] }) ++
          [⟨st.m_nodes.length, attr.id, data, .idx j, []⟩] },
      ?_, rfl, rfl, rfl, rfl, by simp [length_updateNth], ?_, hnth_len, ?_⟩
    · unfold findOrCreate CaliperImpl.create_node CaliperState.append
      simp only [hfc]
      simp [updateNth_append_len, updateNth_append_lt _ _ _ hjlt]
    · -- the invariant for the node-append case
      refine { ids := ?_, parents := ?_, rootkids := ?_, kids := ?_, par_root := ?_,
               par_idx := ?_, dedup_root := ?_, dedup_kids := ?_,
               ctx_local := ?_, ctx_global := ?_ }
      · intro i n h
        rcases hbwd h with ⟨hi, hn⟩ | ⟨hi, hn⟩ | ⟨-, -, hold⟩
        · subst hn
          exact hi.symm
        · subst hn
          subst hi
          show pj.id = i
          exact hinv.ids hpj
        · exact hinv.ids hold
      · intro i n h
        rcases hbwd h with ⟨hi, hn⟩ | ⟨hi, hn⟩ | ⟨-, -, hold⟩
        · subst hn
          subst hi
          exact .inr ⟨j, rfl, hjlt⟩
        · subst hn
          subst hi
          show pj.parent = .root ∨ ∃ k, pj.parent = .idx k ∧ k < i
          exact hinv.parents hpj
        · exact hinv.parents hold
      · intro c hc
        obtain ⟨n, hn, hp⟩ := hinv.rootkids hc
        obtain ⟨n', hn', -, -, -, hp', -⟩ := hfwd hn
        exact ⟨n', hn', by rw [hp']; exact hp⟩
      · intro i pn c h hc
        rcases hbwd h with ⟨hi, hn⟩ | ⟨hi, hn⟩ | ⟨hij, hilt, hold⟩
        · subst hn
          simp at hc
        · subst hn
          subst hi
          rcases List.mem_append.mp hc with hcold | hcnew
          · obtain ⟨n, hn, hp⟩ := hinv.kids hpj hcold
            obtain ⟨n', hn', -, -, -, hp', -⟩ := hfwd hn
            exact ⟨n', hn', by rw [hp']; exact hp⟩
          · rcases List.mem_singleton.mp hcnew with rfl
            exact ⟨_, hnth_len, rfl⟩
        · obtain ⟨n, hn, hp⟩ := hinv.kids hold hc
          obtain ⟨n', hn', -, -, -, hp', -⟩ := hfwd hn
          exact ⟨n', hn', by rw [hp']; exact hp⟩
      · intro c n h hp
        rcases hbwd h with ⟨hi, hn⟩ | ⟨hi, hn⟩ | ⟨-, -, hold⟩
        · subst hn
          cases hp
        · subst hn
          subst hi
          exact hinv.par_root hpj hp
        · exact hinv.par_root hold hp
      · intro c n j' h hp
        rcases hbwd h with ⟨hi, hn⟩ | ⟨hi, hn⟩ | ⟨-, -, hold⟩
        · subst hn
          subst hi
          cases hp
          exact ⟨_, hnth_j, List.mem_append_right _ (List.mem_singleton.mpr rfl)⟩
        · subst hn
          subst hi
          obtain ⟨pn, hpn, hm⟩ := hinv.par_idx hpj hp
          obtain ⟨pn', hpn', -, -, -, -, hsub⟩ := hfwd hpn
          exact ⟨pn', hpn', hsub hm⟩
        · obtain ⟨pn, hpn, hm⟩ := hinv.par_idx hold hp
          obtain ⟨pn', hpn', -, -, -, -, hsub⟩ := hfwd hpn
          exact ⟨pn', hpn', hsub hm⟩
      · refine pairwise_imp_mem (fun a b ha hb h => ?_) hinv.dedup_root
        obtain ⟨na, hna, -⟩ := hinv.rootkids ha
        obtain ⟨nb, hnb, -⟩ := hinv.rootkids hb
        exact hdkt a b (nth_some_lt hna) (nth_some_lt hnb) h
      · intro i pn h
        rcases hbwd h with ⟨hi, hn⟩ | ⟨hi, hn⟩ | ⟨-, -, hold⟩
        · subst hn
          exact List.Pairwise.nil
        · subst hn
          subst hi
          rw [List.pairwise_append]
          refine ⟨?_, List.pairwise_singleton _ _, ?_⟩
          · refine pairwise_imp_mem (fun a b ha hb hd => ?_) (hinv.dedup_kids hpj)
            obtain ⟨na, hna, -⟩ := hinv.kids hpj ha
            obtain ⟨nb, hnb, -⟩ := hinv.kids hpj hb
            exact hdkt a b (nth_some_lt hna) (nth_some_lt hnb) hd
          · intro a ha b hb
            rcases List.mem_singleton.mp hb with rfl
            intro na nb hna hnb hk
            obtain ⟨ma, hma, -⟩ := hinv.kids hpj ha
            obtain ⟨ma2, hma2, ha1, ha2⟩ := hbwdKey hna (nth_some_lt hma)
            rw [hnth_len] at hnb
            cases hnb
            exact hnomatch a ha ma2 hma2
              ⟨by rw [← ha1]; exact hk.1, by rw [← ha2]; exact hk.2⟩
        · refine pairwise_imp_mem (fun a b ha hb hd => ?_) (hinv.dedup_kids hold)
          obtain ⟨na, hna, -⟩ := hinv.kids hold ha
          obtain ⟨nb, hnb, -⟩ := hinv.kids hold hb
          exact hdkt a b (nth_some_lt hna) (nth_some_lt hnb) hd
      · intro env key v h
        rcases hinv.ctx_local h with hl | ⟨i, hv, hlt⟩
        · exact .inl hl
        · exact .inr ⟨i, hv, by simp [length_updateNth]; omega⟩
      · intro key v h
        obtain ⟨hg, hrest⟩ := hinv.ctx_global h
        refine ⟨hg, ?_⟩
        rcases hrest with hl | ⟨i, hv, hlt⟩
        · exact .inl hl
        · exact .inr ⟨i, hv, by simp [length_updateNth]; omega⟩
    · intro i m hm
      obtain ⟨m', hm', h1, h2, h3, h4, -⟩ := hfwd hm
      exact ⟨m', hm', h1, h2, h3, h4⟩

end Cali

namespace Cali

theorem lookupA_delA_self {α β : Type} [DecidableEq α] (l : List (α × β)) (k : α) :
    lookupA (delA l k) k = none := by
  induction l with
  | nil => simp [delA, lookupA]
  | cons hd t ih =>
    obtain ⟨a, b⟩ := hd
    by_cases hk : a = k
    · simpa [delA, hk] using ih
    · simpa [delA, hk, lookupA] using ih

/-- Writing a node reference below the vector length preserves the
invariant. -/
theorem ctx_set_noderef_inv {A : Nat → Attribute} {st : CaliperState} (env key : Nat)
    (g : Bool) {i : Nat} (hinv : Inv A st) (hi : i < st.m_nodes.length)
    (hg : g = true → (A key).is_global = true) :
    Inv A { st with m_context := (st.m_context.set env key (.noderef i) g).2 } := by
  cases g with
  | false =>
    refine { ids := hinv.ids, parents := hinv.parents, rootkids := hinv.rootkids,
             kids := hinv.kids, par_root := hinv.par_root, par_idx := hinv.par_idx,
             dedup_root := hinv.dedup_root, dedup_kids := hinv.dedup_kids,
             ctx_local := ?_, ctx_global := hinv.ctx_global }
    intro env' key' v h
    show ((A key').store_as_value = true ∧ ∃ x, v = .scalar x) ∨
      ∃ i', v = .noderef i' ∧ i' < st.m_nodes.length
    by_cases hk : ((env, key) : Nat × Nat) = (env', key')
    · have h' : lookupA (updA st.m_context.env_local (env, key) (.noderef i)) (env', key') =
          some v := h
      rw [hk, lookupA_updA_self] at h'
      cases h'
      exact .inr ⟨i, rfl, hi⟩
    · have h' : lookupA (updA st.m_context.env_local (env, key) (.noderef i)) (env', key') =
          some v := h
      rw [lookupA_updA_ne _ _ _ _ hk] at h'
      exact hinv.ctx_local h'
  | true =>
    refine { ids := hinv.ids, parents := hinv.parents, rootkids := hinv.rootkids,
             kids := hinv.kids, par_root := hinv.par_root, par_idx := hinv.par_idx,
             dedup_root := hinv.dedup_root, dedup_kids := hinv.dedup_kids,
             ctx_local := hinv.ctx_local, ctx_global := ?_ }
    intro key' v h
    show (A key').is_global = true ∧
      (((A key').store_as_value = true ∧ ∃ x, v = .scalar x) ∨
        ∃ i', v = .noderef i' ∧ i' < st.m_nodes.length)
    by_cases hk : key = key'
    · have h' : lookupA (updA st.m_context.globals key (.noderef i)) key' = some v := h
      rw [hk, lookupA_updA_self] at h'
      cases h'
      exact ⟨hk ▸ hg rfl, .inr ⟨i, rfl, hi⟩⟩
    · have h' : lookupA (updA st.m_context.globals key (.noderef i)) key' = some v := h
      rw [lookupA_updA_ne _ _ _ _ hk] at h'
      exact hinv.ctx_global h'

/-- Writing an inline scalar for a store-as-value attribute preserves the
invariant. -/
theorem ctx_set_scalar_inv {A : Nat → Attribute} {st : CaliperState} (env key : Nat)
    (g : Bool) (x : Nat) (hinv : Inv A st) (hsv : (A key).store_as_value = true)
    (hg : g = true → (A key).is_global = true) :
    Inv A { st with m_context := (st.m_context.set env key (.scalar x) g).2 } := by
  cases g with
  | false =>
    refine { ids := hinv.ids, parents := hinv.parents, rootkids := hinv.rootkids,
             kids := hinv.kids, par_root := hinv.par_root, par_idx := hinv.par_idx,
             dedup_root := hinv.dedup_root, dedup_kids := hinv.dedup_kids,
             ctx_local := ?_, ctx_global := hinv.ctx_global }
    intro env' key' v h
    show ((A key').store_as_value = true ∧ ∃ x', v = .scalar x') ∨
      ∃ i', v = .noderef i' ∧ i' < st.m_nodes.length
    by_cases hk : ((env, key) : Nat × Nat) = (env', key')
    · have h' : lookupA (updA st.m_context.env_local (env, key) (.scalar x)) (env', key') =
          some v := h
      rw [hk, lookupA_updA_self] at h'
      cases h'
      exact .inl ⟨by rw [← (Prod.mk.injEq .. |>.mp hk).2]; exact hsv, x, rfl⟩
    · have h' : lookupA (updA st.m_context.env_local (env, key) (.scalar x)) (env', key') =
          some v := h
      rw [lookupA_updA_ne _ _ _ _ hk] at h'
      exact hinv.ctx_local h'
  | true =>
    refine { ids := hinv.ids, parents := hinv.parents, rootkids := hinv.rootkids,
             kids := hinv.kids, par_root := hinv.par_root, par_idx := hinv.par_idx,
             dedup_root := hinv.dedup_root, dedup_kids := hinv.dedup_kids,
             ctx_local := hinv.ctx_local, ctx_global := ?_ }
    intro key' v h
    show (A key').is_global = true ∧
      (((A key').store_as_value = true ∧ ∃ x', v = .scalar x') ∨
        ∃ i', v = .noderef i' ∧ i' < st.m_nodes.length)
    by_cases hk : key = key'
    · have h' : lookupA (updA st.m_context.globals key (.scalar x)) key' = some v := h
      rw [hk, lookupA_updA_self] at h'
      cases h'
      exact ⟨hk ▸ hg rfl, .inl ⟨hk ▸ hsv, x, rfl⟩⟩
    · have h' : lookupA (updA st.m_context.globals key (.scalar x)) key' = some v := h
      rw [lookupA_updA_ne _ _ _ _ hk] at h'
      exact hinv.ctx_global h'

/-- Unsetting an env-local entry preserves the invariant. -/
theorem ctx_unset_inv {A : Nat → Attribute} {st : CaliperState} (env key : Nat)
    (hinv : Inv A st) :
    Inv A { st with m_context := (st.m_context.unset env key).2 } := by
  have hloc : ∀ {env' key' : Nat} {v : CtxVal},
      lookupA (st.m_context.unset env key).2.env_local (env', key') = some v →
      lookupA st.m_context.env_local (env', key') = some v ∨ False := by
    intro env' key' v h
    unfold Context.unset at h
    split at h
    · by_cases hk : ((env, key) : Nat × Nat) = (env', key')
      · rw [hk] at h
        rw [lookupA_delA_self] at h
        cases h
      · rw [lookupA_delA_ne _ _ _ hk] at h
        exact .inl h
    · exact .inl h
  have hglo : ∀ {key' : Nat} {v : CtxVal},
      lookupA (st.m_context.unset env key).2.globals key' = some v →
      lookupA st.m_context.globals key' = some v := by
    intro key' v h
    unfold Context.unset at h
    split at h
    · exact h
    · exact h
  refine { ids := hinv.ids, parents := hinv.parents, rootkids := hinv.rootkids,
           kids := hinv.kids, par_root := hinv.par_root, par_idx := hinv.par_idx,
           dedup_root := hinv.dedup_root, dedup_kids := hinv.dedup_kids,
           ctx_local := ?_, ctx_global := ?_ }
  · intro env' key' v h
    rcases hloc h with h' | hf
    · exact hinv.ctx_local h'
    · cases hf
  · intro key' v h
    exact hinv.ctx_global (hglo h)

end Cali

namespace Cali

/-- The reader count does not affect the invariant. -/
theorem inv_readers {A : Nat → Attribute} {st : CaliperState} (hinv : Inv A st) (r : Nat) :
    Inv A { st with m_nodelock_readers := r } :=
  { ids := hinv.ids, parents := hinv.parents, rootkids := hinv.rootkids, kids := hinv.kids,
    par_root := hinv.par_root, par_idx := hinv.par_idx, dedup_root := hinv.dedup_root,
    dedup_kids := hinv.dedup_kids, ctx_local := hinv.ctx_local,
    ctx_global := hinv.ctx_global }

/-- The whole reference path of begin and set preserves the invariant. -/
theorem finishRef_inv {A : Nat → Attribute} {st : CaliperState} {env : Nat}
    {attr : Attribute} {data : List Nat} {pp : NPtr} {e : cali_err} {st' : CaliperState}
    (hinv : Inv A st)
    (hpp : pp = .root ∨ ∃ i, pp = .idx i ∧ i < st.m_nodes.length)
    (hAa : A attr.id = attr)
    (h : finishRef env attr (findOrCreate st pp attr data) = some (e, st')) : Inv A st' := by
  cases hfc : findChild st.m_nodes attr.id data (childIds st pp) with
  | some n =>
    obtain ⟨heq, hn, hattr, hdata, hpar, hlt, hmem⟩ := findOrCreate_found hinv hpp hfc
    rw [heq] at h
    unfold finishRef at h
    simp only [Option.some.injEq, Prod.mk.injEq] at h
    rw [← h.2]
    exact ctx_set_noderef_inv env attr.id attr.is_global hinv hlt
      (fun hg => by rw [hAa]; exact hg)
  | none =>
    obtain ⟨st1, heq, hctx, hrd, hcb, hrc, hlen, hinv1, hnew, hpres⟩ :=
      findOrCreate_create hinv hpp hfc
    rw [heq] at h
    unfold finishRef at h
    simp only [Option.some.injEq, Prod.mk.injEq] at h
    rw [← h.2]
    exact ctx_set_noderef_inv env attr.id attr.is_global hinv1 (by omega)
      (fun hg => by rw [hAa]; exact hg)

/-- CaliperImpl::begin preserves the invariant. -/
theorem begin_inv {A : Nat → Attribute} (hA : AttrMapWF A) {st : CaliperState}
    {env key : Nat} {data : List Nat} {e : cali_err} {st' : CaliperState} (hinv : Inv A st)
    (h : CaliperImpl.begin st env (A key) data = some (e, st')) : Inv A st' := by
  have hAa : A (A key).id = A key := by rw [hA key]
  simp only [CaliperImpl.begin] at h
  split at h
  · simp only [Option.some.injEq, Prod.mk.injEq] at h
    rw [← h.2]
    exact hinv
  · split at h
    · rename_i hcond
      simp only [Option.some.injEq, Prod.mk.injEq] at h
      rw [← h.2]
      exact ctx_set_scalar_inv env (A key).id (A key).is_global _ hinv
        (by rw [hAa]; exact hcond.1) (fun hg => by rw [hAa]; exact hg)
    · split at h
      · split at h
        · rename_i hplt
          exact finishRef_inv hinv (.inr ⟨_, rfl, hplt⟩) hAa h
        · cases h
      · exact finishRef_inv hinv (.inl rfl) hAa h

/-- CaliperImpl::set preserves the invariant. -/
theorem set_inv {A : Nat → Attribute} (hA : AttrMapWF A) {st : CaliperState}
    {env key : Nat} {data : List Nat} {e : cali_err} {st' : CaliperState} (hinv : Inv A st)
    (h : CaliperImpl.set st env (A key) data = some (e, st')) : Inv A st' := by
  have hAa : A (A key).id = A key := by rw [hA key]
  simp only [CaliperImpl.set] at h
  split at h
  · simp only [Option.some.injEq, Prod.mk.injEq] at h
    rw [← h.2]
    exact hinv
  · split at h
    · rename_i hcond
      simp only [Option.some.injEq, Prod.mk.injEq] at h
      rw [← h.2]
      exact ctx_set_scalar_inv env (A key).id (A key).is_global _ hinv
        (by rw [hAa]; exact hcond.1) (fun hg => by rw [hAa]; exact hg)
    · split at h
      · split at h
        · cases h
        · rename_i n heq
          rcases hinv.parents heq with hp | ⟨j, hp, hjlt⟩
          · rw [hp] at h
            rw [if_neg (by simp)] at h
            exact finishRef_inv hinv (.inl rfl) hAa h
          · rw [hp] at h
            rw [if_neg (by simp)] at h
            refine finishRef_inv hinv (.inr ⟨j, rfl, ?_⟩) hAa h
            have := nth_some_lt heq
            omega
      · exact finishRef_inv hinv (.inl rfl) hAa h

/-- CaliperImpl::end preserves the invariant. -/
theorem end_inv {A : Nat → Attribute} (hA : AttrMapWF A) {st : CaliperState}
    {env key : Nat} {e : cali_err} {st' : CaliperState} (hinv : Inv A st)
    (h : CaliperImpl.end_ st env (A key) = some (e, st')) : Inv A st' := by
  simp only [CaliperImpl.end_] at h
  split at h
  · simp only [Option.some.injEq, Prod.mk.injEq] at h
    rw [← h.2]
    exact hinv
  · split at h
    · simp only [Option.some.injEq, Prod.mk.injEq] at h
      rw [← h.2]
      exact ctx_unset_inv env (A key).id hinv
    · split at h
      · split at h
        · cases h
        · -- walk ended at null: the lock-leaking early return
          simp only [Option.some.injEq, Prod.mk.injEq] at h
          rw [← h.2]
          exact inv_readers hinv _
        · simp only [Option.some.injEq, Prod.mk.injEq] at h
          rw [← h.2]
          exact inv_readers hinv _
        · split at h
          · cases h
          · rename_i n heq
            split at h
            · simp only [Option.some.injEq, Prod.mk.injEq] at h
              rw [← h.2]
              exact ctx_unset_inv env (A key).id (inv_readers hinv _)
            · split at h
              · cases h
              · rename_i pn heq2
                simp only [Option.some.injEq, Prod.mk.injEq] at h
                rw [← h.2]
                refine ctx_set_noderef_inv env (A key).id false
                  (inv_readers hinv _) ?_ (fun hg => by cases hg)
                have hid := hinv.ids heq2
                have hlt : pn.id < st.m_nodes.length := by
                  rw [hid]
                  exact nth_some_lt heq2
                exact hlt
            · simp only [Option.some.injEq, Prod.mk.injEq] at h
              rw [← h.2]
              exact inv_readers hinv _
      · simp only [Option.some.injEq, Prod.mk.injEq] at h
        rw [← h.2]
        exact hinv

/-- Every reachable state satisfies the invariant. -/
theorem reachable_inv {A : Nat → Attribute} (hA : AttrMapWF A) {st : CaliperState}
    (h : Reachable A st) : Inv A st := by
  induction h with
  | init => exact inv_init A
  | stepBegin hr hs ih => exact begin_inv hA ih hs
  | stepEnd hr hs ih => exact end_inv hA ih hs
  | stepSet hr hs ih => exact set_inv hA ih hs

end Cali

namespace Cali

theorem updA_updA_self {α β : Type} [DecidableEq α] (l : List (α × β)) (k : α) (v w : β) :
    updA (updA l k v) k w = updA l k w := by
  induction l with
  | nil => simp [updA]
  | cons hd t ih =>
    obtain ⟨a, b⟩ := hd
    by_cases hk : a = k
    · simp [updA, hk]
    · simp [updA, hk, ih]

/-- The walk stops immediately on a node carrying the searched attribute. -/
theorem walkUp_hit {nodes : List Node} {key i : Nat} {n : Node} (fuel : Nat)
    (h : nth nodes i = some n) (ha : n.attr = key) :
    walkUp nodes key (fuel + 1) (.idx i) = some (.idx i) := by
  unfold walkUp
  rw [h]
  simp [ha]

/-- Evaluation of the reference path of begin, by presence of the current
entry. -/
theorem begin_refpath {st : CaliperState} {env : Nat} {attr : Attribute} {data : List Nat}
    (hid : attr.id ≠ CALI_INV_ID) (hns : ¬(attr.store_as_value = true ∧ data.length = 8)) :
    (∀ i, st.m_context.get env attr.id = (true, i) → i < st.m_nodes.length →
      CaliperImpl.begin st env attr data =
        finishRef env attr (findOrCreate st (.idx i) attr data)) ∧
    (st.m_context.get env attr.id = (false, 0) →
      CaliperImpl.begin st env attr data =
        finishRef env attr (findOrCreate st .root attr data)) := by
  constructor
  · intro i hget hi
    simp only [CaliperImpl.begin, if_neg hid, if_neg hns, hget, if_pos hi]
    simp
  · intro hget
    simp only [CaliperImpl.begin, if_neg hid, if_neg hns, hget]
    simp

/-- Evaluation of the store-as-value path of begin. -/
theorem begin_savpath {st : CaliperState} {env : Nat} {attr : Attribute} {data : List Nat}
    (hid : attr.id ≠ CALI_INV_ID) (hsv : attr.store_as_value = true)
    (h8 : data.length = 8) :
    CaliperImpl.begin st env attr data = some (.CALI_SUCCESS,
      { st with m_context :=
          (st.m_context.set env attr.id (.scalar (le64 data)) attr.is_global).2 }) := by
  simp only [CaliperImpl.begin, if_neg hid, if_pos (And.intro hsv h8)]
  unfold Context.set
  cases hg : attr.is_global <;> simp [hg]

/-- Evaluation of end on a current node carrying the attribute: it pops to
the parent, unsetting the env-local entry when the parent is the root. -/
theorem end_pop {st : CaliperState} {env : Nat} {attr : Attribute} {c : Nat} {n : Node}
    (hid : attr.id ≠ CALI_INV_ID) (hsv : attr.store_as_value = false)
    (hget : st.m_context.get env attr.id = (true, c))
    (hn : nth st.m_nodes c = some n) (ha : n.attr = attr.id) :
    (n.parent = .root →
      CaliperImpl.end_ st env attr = some ((st.m_context.unset env attr.id).1,
        { st with m_context := (st.m_context.unset env attr.id).2 })) ∧
    (∀ j pn, n.parent = .idx j → nth st.m_nodes j = some pn →
      CaliperImpl.end_ st env attr = some (.CALI_SUCCESS,
        { st with m_context :=
            (st.m_context.set env attr.id (.noderef pn.id) false).2 })) := by
  have hsv' : ¬(attr.store_as_value = true) := by simp [hsv]
  have hwalk : walkUp st.m_nodes attr.id (st.m_nodes.length + 3) (.idx c) =
      some (.idx c) := walkUp_hit (st.m_nodes.length + 2) hn ha
  constructor
  · intro hp
    simp only [CaliperImpl.end_, if_neg hid, if_neg hsv', hget, nodeAt]
    simp only [hwalk, hn, hp, Nat.add_sub_cancel]
    simp
  · intro j pn hp hpn
    simp only [CaliperImpl.end_, if_neg hid, if_neg hsv', hget, nodeAt]
    simp only [hwalk, hn, hp, hpn, Nat.add_sub_cancel]
    unfold Context.set
    simp

/-- Evaluation of end on a store-as-value attribute. -/
theorem end_savpath {st : CaliperState} {env : Nat} {attr : Attribute}
    (hid : attr.id ≠ CALI_INV_ID) (hsv : attr.store_as_value = true) :
    CaliperImpl.end_ st env attr = some ((st.m_context.unset env attr.id).1,
      { st with m_context := (st.m_context.unset env attr.id).2 }) := by
  simp only [CaliperImpl.end_, if_neg hid, if_pos hsv]

/-- The complete specification of the reference path of begin and set:
a CALI_SUCCESS result, the written entry references a node carrying
(attribute, payload) under the requested parent, pre-existing nodes are
untouched, and the node is either an existing child or freshly appended. -/
theorem refPath_spec {A : Nat → Attribute} {st : CaliperState} {env : Nat}
    {attr : Attribute} {data : List Nat} {pp : NPtr} {e : cali_err} {st' : CaliperState}
    (hinv : Inv A st)
    (hpp : pp = .root ∨ ∃ i, pp = .idx i ∧ i < st.m_nodes.length)
    (h : finishRef env attr (findOrCreate st pp attr data) = some (e, st')) :
    e = .CALI_SUCCESS ∧
    st'.m_nodelock_readers = st.m_nodelock_readers ∧
    (∃ c n, producedEntry st' env attr = some (.noderef c) ∧
      nth st'.m_nodes c = some n ∧ n.id = c ∧ n.attr = attr.id ∧ n.data = data ∧
      n.parent = pp) ∧
    (∀ i m, nth st.m_nodes i = some m → ∃ m', nth st'.m_nodes i = some m' ∧
      m'.id = m.id ∧ m'.attr = m.attr ∧ m'.data = m.data ∧ m'.parent = m.parent) ∧
    (∃ c, producedEntry st' env attr = some (.noderef c) ∧
      st'.m_context = (st.m_context.set env attr.id (.noderef c) attr.is_global).2) ∧
    ((st'.m_nodes = st.m_nodes ∧
        ∃ c, producedEntry st' env attr = some (.noderef c) ∧ c ∈ childIds st pp) ∨
      (st'.m_nodes.length = st.m_nodes.length + 1 ∧
        producedEntry st' env attr = some (.noderef st.m_nodes.length))) := by
  have hentry := finishRef_entry h
  cases hfc : findChild st.m_nodes attr.id data (childIds st pp) with
  | some n =>
    obtain ⟨heq, hn, hattr, hdata, hpar, hlt, hmem⟩ := findOrCreate_found hinv hpp hfc
    rw [heq] at h hentry
    simp only [finishRef, Option.some.injEq, Prod.mk.injEq] at h
    obtain ⟨he, hst⟩ := h
    subst hst
    refine ⟨?_, rfl, ⟨n.id, n, hentry, hn, rfl, hattr, hdata, hpar⟩,
      fun i m hm => ⟨m, hm, rfl, rfl, rfl, rfl⟩, ⟨n.id, hentry, rfl⟩,
      .inl ⟨rfl, n.id, hentry, hmem⟩⟩
    rw [← he]
    unfold Context.set
    split <;> rfl
  | none =>
    obtain ⟨st1, heq, hctx, hrd, hcb, hrc, hlen, hinv1, hnew, hpres⟩ :=
      findOrCreate_create hinv hpp hfc
    rw [heq] at h hentry
    simp only [finishRef, Option.some.injEq, Prod.mk.injEq] at h
    obtain ⟨he, hst⟩ := h
    subst hst
    refine ⟨?_, hrd, ⟨st.m_nodes.length, _, hentry, hnew, rfl, rfl, rfl, rfl⟩,
      fun i m hm => hpres i m hm, ⟨st.m_nodes.length, hentry, by rw [hctx]⟩,
      .inr ⟨hlen, hentry⟩⟩
    rw [← he]
    unfold Context.set
    split <;> rfl

end Cali

namespace Cali

theorem Context.set_false (c : Context) (env key : Nat) (v : CtxVal) :
    c.set env key v false =
      (.CALI_SUCCESS, { c with env_local := updA c.env_local (env, key) v }) := by
  simp [Context.set]

theorem Context.set_true (c : Context) (env key : Nat) (v : CtxVal) :
    c.set env key v true =
      (.CALI_SUCCESS, { c with globals := updA c.globals key v }) := by
  simp [Context.set]

/-- C3 (amended): for every reachable coordinator state, every environment
and every payload, begin followed by end on a valid attribute that is
neither store-as-value nor global restores the whole context store (and
hence the snapshot of the environment) and the lock state bit-for-bit.
Store-as-value attributes break the claim because begin overwrites the
single inline slot and end discards it; global attributes break it because
begin writes the global overlay while end unsets only the env-local map. -/
theorem C3_amended (A : Nat → Attribute) (st : CaliperState) (env key : Nat)
    (data : List Nat) (hA : AttrMapWF A) (hr : Reachable A st)
    (hid : key ≠ CALI_INV_ID) (hsv : (A key).store_as_value = false)
    (hgl : (A key).is_global = false) :
    ∃ e1 st1 e2 st2,
      CaliperImpl.begin st env (A key) data = some (e1, st1) ∧
      CaliperImpl.end_ st1 env (A key) = some (e2, st2) ∧
      st2.m_context = st.m_context ∧
      st2.m_context.get_context env = st.m_context.get_context env ∧
      st2.m_nodelock_readers = st.m_nodelock_readers := by
  have hinv := reachable_inv hA hr
  have hAid : (A key).id = key := hA key
  have hid' : (A key).id ≠ CALI_INV_ID := by rw [hAid]; exact hid
  have hns : ¬((A key).store_as_value = true ∧ data.length = 8) := fun hc => by
    rw [hsv] at hc
    cases hc.1
  have hglob : lookupA st.m_context.globals (A key).id = none := by
    rw [hAid]
    cases hg : lookupA st.m_context.globals key with
    | none => rfl
    | some v =>
      have hh := (hinv.ctx_global hg).1
      rw [hgl] at hh
      cases hh
  cases hloc : lookupA st.m_context.env_local (env, (A key).id) with
  | some v =>
    have hloc' : lookupA st.m_context.env_local (env, key) = some v := by
      rw [← hAid]
      exact hloc
    rcases hinv.ctx_local hloc' with ⟨hsv2, -⟩ | ⟨i, hv, hilt⟩
    · rw [hsv] at hsv2
      cases hsv2
    · subst hv
      have hget : st.m_context.get env (A key).id = (true, i) := by
        unfold Context.get ctxResolve
        rw [hloc]
        rfl
      obtain ⟨hb, -⟩ := @begin_refpath st env (A key) data hid' hns
      have hbeq := hb i hget hilt
      obtain ⟨⟨e1, st1⟩, hfin⟩ :
          ∃ r, finishRef env (A key) (findOrCreate st (.idx i) (A key) data) = some r := by
        unfold finishRef
        exact ⟨_, rfl⟩
      obtain ⟨he1, hrd1, ⟨c, n, hentry, hcn, hcid, hcattr, hcdata, hcpar⟩, hpres,
          ⟨c2, hentry2, hctx1⟩, -⟩ := refPath_spec hinv (.inr ⟨i, rfl, hilt⟩) hfin
      have hcc : c = c2 := CtxVal.noderef.inj (Option.some.inj (hentry.symm.trans hentry2))
      rw [← hcc] at hctx1
      have hctx1' : st1.m_context = { st.m_context with
          env_local := updA st.m_context.env_local (env, (A key).id) (.noderef c) } := by
        rw [hctx1, hgl, Context.set_false]
      have hget1 : st1.m_context.get env (A key).id = (true, c) := by
        simp only [Context.get, ctxResolve, hctx1', lookupA_updA_self]
        rfl
      obtain ⟨m, hm⟩ := nth_lt hilt
      obtain ⟨m', hm', hmid, -, -, -⟩ := hpres i m hm
      have hmid' : m'.id = i := by
        rw [hmid]
        exact hinv.ids hm
      have hend := (end_pop hid' hsv hget1 hcn hcattr).2 i m' hcpar hm'
      have hctxeq : (st1.m_context.set env (A key).id (.noderef m'.id) false).2 =
          st.m_context := by
        rw [hmid', Context.set_false]
        simp only [hctx1']
        rw [updA_updA_self, updA_of_lookupA _ _ _ hloc]
      exact ⟨e1, st1, .CALI_SUCCESS, _, by rw [hbeq]; exact hfin, hend, hctxeq,
        congrArg (fun ctx => Context.get_context ctx env) hctxeq, hrd1⟩
  | none =>
    have hget : st.m_context.get env (A key).id = (false, 0) := by
      simp only [Context.get, ctxResolve, hloc, hglob]
    obtain ⟨-, hb⟩ := @begin_refpath st env (A key) data hid' hns
    have hbeq := hb hget
    obtain ⟨⟨e1, st1⟩, hfin⟩ :
        ∃ r, finishRef env (A key) (findOrCreate st .root (A key) data) = some r := by
      unfold finishRef
      exact ⟨_, rfl⟩
    obtain ⟨he1, hrd1, ⟨c, n, hentry, hcn, hcid, hcattr, hcdata, hcpar⟩, hpres,
        ⟨c2, hentry2, hctx1⟩, -⟩ := refPath_spec hinv (.inl rfl) hfin
    have hcc : c = c2 := CtxVal.noderef.inj (Option.some.inj (hentry.symm.trans hentry2))
    rw [← hcc] at hctx1
    have hctx1' : st1.m_context = { st.m_context with
        env_local := updA st.m_context.env_local (env, (A key).id) (.noderef c) } := by
      rw [hctx1, hgl, Context.set_false]
    have hget1 : st1.m_context.get env (A key).id = (true, c) := by
      simp only [Context.get, ctxResolve, hctx1', lookupA_updA_self]
      rfl
    have hend := (end_pop hid' hsv hget1 hcn hcattr).1 hcpar
    have huns : st1.m_context.unset env (A key).id = (.CALI_SUCCESS, st.m_context) := by
      rw [hctx1']
      simp only [Context.unset, lookupA_updA_self]
      rw [updA_of_absent _ _ _ hloc, delA_append_absent _ _ _ hloc]
    refine ⟨e1, st1, _, _, by rw [hbeq]; exact hfin, hend, ?_, ?_, hrd1⟩
    · show (st1.m_context.unset env (A key).id).2 = st.m_context
      rw [huns]
    · show (st1.m_context.unset env (A key).id).2.get_context env =
        st.m_context.get_context env
      rw [huns]

end Cali

namespace Cali

/-- The parent under which a begin pushes: the node of the current entry,
or the root when there is none; none models the out-of-range access. -/
def beginParent (st : CaliperState) (env key : Nat) : Option NPtr :=
  let p := st.m_context.get env key
  if p.1 then (if p.2 < st.m_nodes.length then some (.idx p.2) else none)
  else some .root

/-- A registry with no properties set, for the concrete witnesses. -/
def A_plain : Nat → Attribute := fun k => ⟨k, false, false⟩

/-- Witness for C3 (amended) at the initial state. -/
theorem C3_amended_witness :
    AttrMapWF A_plain ∧ Reachable A_plain initCaliper ∧ (1 : Nat) ≠ CALI_INV_ID ∧
    (A_plain 1).store_as_value = false ∧ (A_plain 1).is_global = false ∧
    (∃ e1 st1 e2 st2,
      CaliperImpl.begin initCaliper 0 (A_plain 1) [65] = some (e1, st1) ∧
      CaliperImpl.end_ st1 0 (A_plain 1) = some (e2, st2) ∧
      st2.m_context = initCaliper.m_context ∧
      st2.m_context.get_context 0 = initCaliper.m_context.get_context 0 ∧
      st2.m_nodelock_readers = initCaliper.m_nodelock_readers) :=
  ⟨fun _ => rfl, Reachable.init, by decide, rfl, rfl,
    C3_amended A_plain initCaliper 0 1 [65] (fun _ => rfl) Reachable.init
      (by decide) rfl rfl⟩

/-- C7: node ids are dense and stable in every reachable state: the node at
index i carries id i, get(i) returns that node for every i below the count,
and the id found at an index never differs between reachable states. -/
theorem C7_dense_stable_ids (A : Nat → Attribute) (st : CaliperState)
    (hA : AttrMapWF A) (hr : Reachable A st) :
    (∀ i, i < st.m_nodes.length → ∃ n, nth st.m_nodes i = some n ∧ n.id = i) ∧
    (∀ i, i < st.m_nodes.length →
      ∃ n, CaliperImpl.get st i = some (some n) ∧ n.id = i) ∧
    (∀ st', Reachable A st' → ∀ i n n', nth st.m_nodes i = some n →
      nth st'.m_nodes i = some n' → n'.id = n.id) := by
  have hinv := reachable_inv hA hr
  refine ⟨fun i hi => ?_, fun i hi => ?_, fun st' hr' i n n' hn hn' => ?_⟩
  · obtain ⟨n, hn⟩ := nth_lt hi
    exact ⟨n, hn, hinv.ids hn⟩
  · obtain ⟨n, hn⟩ := nth_lt hi
    refine ⟨n, ?_, hinv.ids hn⟩
    unfold CaliperImpl.get
    rw [if_neg (by omega), hn]
  · have h1 := hinv.ids hn
    have h2 := (reachable_inv hA hr').ids hn'
    rw [h1, h2]

/-- Witness for C7 at a reachable state with one node. -/
theorem C7_dense_stable_ids_witness :
    AttrMapWF A_plain ∧
    (∃ st1, CaliperImpl.begin initCaliper 0 (A_plain 1) [65] =
        some (.CALI_SUCCESS, st1) ∧ Reachable A_plain st1 ∧ st1.m_nodes.length = 1 ∧
      ((∀ i, i < st1.m_nodes.length → ∃ n, nth st1.m_nodes i = some n ∧ n.id = i) ∧
        (∀ i, i < st1.m_nodes.length →
          ∃ n, CaliperImpl.get st1 i = some (some n) ∧ n.id = i) ∧
        (∀ st', Reachable A_plain st' → ∀ i n n', nth st1.m_nodes i = some n →
          nth st'.m_nodes i = some n' → n'.id = n.id))) := by
  have hre : Reachable A_plain
      { m_nodes := [⟨0, 1, [65], .root, []⟩]
        m_root_children := [0]
        m_context := ⟨[((0, 1), .noderef 0)], []⟩
        m_nodelock_readers := 0
        m_env_cb := none } :=
    @Reachable.stepBegin A_plain initCaliper 0 1 [65] .CALI_SUCCESS _ Reachable.init rfl
  exact ⟨fun _ => rfl, _, rfl, hre, rfl,
    C7_dense_stable_ids A_plain _ (fun _ => rfl) hre⟩

end Cali

namespace Cali

/-- C4: in every reachable state no two nodes share parent, attribute id
and byte-identical payload; and a begin whose (parent, attribute, payload)
triple already exists as a child of the current parent reuses that node,
creating none. -/
theorem C4_dedup (A : Nat → Attribute) (st : CaliperState) (hA : AttrMapWF A)
    (hr : Reachable A st) :
    (∀ i j ni nj, nth st.m_nodes i = some ni → nth st.m_nodes j = some nj → i ≠ j →
      ni.parent = nj.parent → ¬(ni.attr = nj.attr ∧ ni.data = nj.data)) ∧
    (∀ env key data e st' pp c n,
      ¬((A key).store_as_value = true ∧ data.length = 8) → key ≠ CALI_INV_ID →
      beginParent st env key = some pp →
      c ∈ childIds st pp → nth st.m_nodes c = some n → n.attr = key → n.data = data →
      CaliperImpl.begin st env (A key) data = some (e, st') →
      st'.m_nodes = st.m_nodes ∧ producedEntry st' env (A key) = some (.noderef c)) := by
  have hinv := reachable_inv hA hr
  constructor
  · intro i j ni nj hi hj hij hpar hk
    rcases hinv.parents hi with hp | ⟨p, hp, -⟩
    · have hpj : nj.parent = .root := by rw [← hpar]; exact hp
      have hmi := hinv.par_root hi hp
      have hmj := hinv.par_root hj hpj
      exact List.Pairwise.forall (distinctKeys_symm _) hinv.dedup_root hmi hmj hij
        ni nj hi hj hk
    · have hpj : nj.parent = .idx p := by rw [← hpar]; exact hp
      obtain ⟨pn, hpn, hmi⟩ := hinv.par_idx hi hp
      obtain ⟨pn', hpn', hmj⟩ := hinv.par_idx hj hpj
      rw [hpn] at hpn'
      cases hpn'
      exact List.Pairwise.forall (distinctKeys_symm _) (hinv.dedup_kids hpn) hmi hmj hij
        ni nj hi hj hk
  · intro env key data e st' pp c n hns0 hkid hbp hcmem hcn hattr hdata hb
    have hAid := hA key
    have hid' : (A key).id ≠ CALI_INV_ID := by rw [hAid]; exact hkid
    rw [← hAid] at hbp
    obtain ⟨hb1, hb2⟩ := @begin_refpath st env (A key) data hid' hns0
    simp only [beginParent] at hbp
    by_cases hp1 : (st.m_context.get env (A key).id).1 = true
    · rw [if_pos hp1] at hbp
      by_cases hplt : (st.m_context.get env (A key).id).2 < st.m_nodes.length
      · rw [if_pos hplt] at hbp
        have hpp2 : pp = .idx (st.m_context.get env (A key).id).2 :=
          (Option.some.inj hbp).symm
        subst hpp2
        have hget : st.m_context.get env (A key).id =
            (true, (st.m_context.get env (A key).id).2) := by
          rw [← hp1]
        have hbeq := hb1 _ hget hplt
        have hpw : (childIds st (.idx (st.m_context.get env (A key).id).2)).Pairwise
            (distinctKeys st.m_nodes) := by
          obtain ⟨pn, hpn⟩ := nth_lt hplt
          have hch : childIds st (.idx (st.m_context.get env (A key).id).2) =
              pn.children := by
            simp [childIds, CaliperState.childrenOf, nodeAt, hpn]
          rw [hch]
          exact hinv.dedup_kids hpn
        have hattr2 : n.attr = (A key).id := by rw [hAid]; exact hattr
        have hfc := findChild_of_mem hpw hcmem hcn hattr2 hdata
        obtain ⟨heq, -, -, -, -, -, -⟩ :=
          findOrCreate_found hinv (.inr ⟨_, rfl, hplt⟩) hfc
        have hfin : finishRef env (A key) ((n.id, st) : Nat × CaliperState) =
            some (e, st') := by
          rw [← heq, ← hbeq]
          exact hb
        have hpe := finishRef_entry hfin
        have hcid : ((n.id, st) : Nat × CaliperState).1 = c := hinv.ids hcn
        rw [hcid] at hpe
        refine ⟨?_, hpe⟩
        simp only [finishRef, Option.some.injEq, Prod.mk.injEq] at hfin
        rw [← hfin.2]
      · rw [if_neg hplt] at hbp
        cases hbp
    · rw [if_neg hp1] at hbp
      have hpp2 : pp = .root := (Option.some.inj hbp).symm
      subst hpp2
      have hget : st.m_context.get env (A key).id = (false, 0) := by
        unfold Context.get
        cases hres : ctxResolve st.m_context env (A key).id with
        | none => rfl
        | some v =>
          exfalso
          apply hp1
          unfold Context.get
          rw [hres]
      have hbeq := hb2 hget
      have hpw : (childIds st .root).Pairwise (distinctKeys st.m_nodes) :=
        hinv.dedup_root
      have hattr2 : n.attr = (A key).id := by rw [hAid]; exact hattr
      have hfc := findChild_of_mem hpw hcmem hcn hattr2 hdata
      obtain ⟨heq, -, -, -, -, -, -⟩ := findOrCreate_found hinv (.inl rfl) hfc
      have hfin : finishRef env (A key) ((n.id, st) : Nat × CaliperState) =
          some (e, st') := by
        rw [← heq, ← hbeq]
        exact hb
      have hpe := finishRef_entry hfin
      have hcid : ((n.id, st) : Nat × CaliperState).1 = c := hinv.ids hcn
      rw [hcid] at hpe
      refine ⟨?_, hpe⟩
      simp only [finishRef, Option.some.injEq, Prod.mk.injEq] at hfin
      rw [← hfin.2]

/-- The reachable state of the C4 witness: one node, entry already ended. -/
def c4stA : CaliperState :=
  { m_nodes := [⟨0, 1, [88], .root, []⟩]
    m_root_children := [0]
    m_context := ⟨[], []⟩
    m_nodelock_readers := 0
    m_env_cb := none }

/-- The state after the reusing begin of the C4 witness. -/
def c4stB : CaliperState :=
  { m_nodes := [⟨0, 1, [88], .root, []⟩]
    m_root_children := [0]
    m_context := ⟨[((0, 1), .noderef 0)], []⟩
    m_nodelock_readers := 0
    m_env_cb := none }

/-- Witness for C4: begin X, end, begin X reuses node 0 and creates none. -/
theorem C4_dedup_witness :
    AttrMapWF A_plain ∧ Reachable A_plain c4stA ∧
    ((∀ i j ni nj, nth c4stA.m_nodes i = some ni → nth c4stA.m_nodes j = some nj →
        i ≠ j → ni.parent = nj.parent → ¬(ni.attr = nj.attr ∧ ni.data = nj.data)) ∧
      (∀ env key data e st' pp c n,
        ¬((A_plain key).store_as_value = true ∧ data.length = 8) → key ≠ CALI_INV_ID →
        beginParent c4stA env key = some pp →
        c ∈ childIds c4stA pp → nth c4stA.m_nodes c = some n → n.attr = key →
        n.data = data →
        CaliperImpl.begin c4stA env (A_plain key) data = some (e, st') →
        st'.m_nodes = c4stA.m_nodes ∧
          producedEntry st' env (A_plain key) = some (.noderef c))) ∧
    (c4stB.m_nodes = c4stA.m_nodes ∧
      producedEntry c4stB 0 (A_plain 1) = some (.noderef 0)) := by
  have h1 : Reachable A_plain
      { m_nodes := [⟨0, 1, [88], .root, []⟩]
        m_root_children := [0]
        m_context := ⟨[((0, 1), .noderef 0)], []⟩
        m_nodelock_readers := 0
        m_env_cb := none } :=
    @Reachable.stepBegin A_plain initCaliper 0 1 [88] .CALI_SUCCESS _ Reachable.init rfl
  have h2 : Reachable A_plain c4stA :=
    @Reachable.stepEnd A_plain _ 0 1 .CALI_SUCCESS c4stA h1 rfl
  have hmain := C4_dedup A_plain c4stA (fun _ => rfl) h2
  exact ⟨fun _ => rfl, h2, hmain,
    hmain.2 0 1 [88] .CALI_SUCCESS c4stB .root 0 ⟨0, 1, [88], .root, []⟩
      (by decide) (by decide) rfl (by decide) rfl rfl rfl rfl⟩

end Cali

namespace Cali

/-- A resolved entry is a scalar only for a store-as-value attribute, and
node references are in range. -/
theorem resolve_inv {A : Nat → Attribute} {st : CaliperState} (hinv : Inv A st)
    {env key : Nat} {v : CtxVal} (h : ctxResolve st.m_context env key = some v) :
    ((A key).store_as_value = true ∧ ∃ x, v = .scalar x) ∨
      ∃ i, v = .noderef i ∧ i < st.m_nodes.length := by
  unfold ctxResolve at h
  split at h
  · rename_i w hl
    cases h
    exact hinv.ctx_local hl
  · exact ((hinv.ctx_global h).2)

/-- Evaluation of the reference path of set, by presence of the current
entry. -/
theorem set_refpath {st : CaliperState} {env : Nat} {attr : Attribute} {data : List Nat}
    (hid : attr.id ≠ CALI_INV_ID) (hns : ¬(attr.store_as_value = true ∧ data.length = 8)) :
    (∀ i m, st.m_context.get env attr.id = (true, i) → nth st.m_nodes i = some m →
      m.parent ≠ .null →
      CaliperImpl.set st env attr data =
        finishRef env attr (findOrCreate st m.parent attr data)) ∧
    (st.m_context.get env attr.id = (false, 0) →
      CaliperImpl.set st env attr data =
        finishRef env attr (findOrCreate st .root attr data)) := by
  constructor
  · intro i m hget hm hnn
    simp only [CaliperImpl.set, if_neg hid, if_neg hns, hget, nodeAt]
    simp only [hm, if_neg hnn]
    simp
  · intro hget
    simp only [CaliperImpl.set, if_neg hid, if_neg hns, hget]
    simp

/-- C6: for every reachable state, environment, valid non-store-as-value
attribute and payload, set binds the entry it writes to a node carrying
(attribute, payload) whose parent is the parent of the previously current
node (the root when there is no current entry), found among the existing
children of that parent or freshly created; no existing node is removed or
altered in id, attribute or payload. -/
theorem C6_set_replaces_top (A : Nat → Attribute) (st : CaliperState) (env key : Nat)
    (data : List Nat) (hA : AttrMapWF A) (hr : Reachable A st)
    (hid : key ≠ CALI_INV_ID) (hsv : (A key).store_as_value = false) :
    ∃ e st' c n,
      CaliperImpl.set st env (A key) data = some (e, st') ∧ e = .CALI_SUCCESS ∧
      producedEntry st' env (A key) = some (.noderef c) ∧
      nth st'.m_nodes c = some n ∧ n.id = c ∧ n.attr = key ∧ n.data = data ∧
      ((ctxResolve st.m_context env key = none ∧ n.parent = .root) ∨
        (∃ i m, ctxResolve st.m_context env key = some (.noderef i) ∧
          nth st.m_nodes i = some m ∧ n.parent = m.parent)) ∧
      ((st'.m_nodes = st.m_nodes ∧ c ∈ childIds st n.parent) ∨
        (st'.m_nodes.length = st.m_nodes.length + 1 ∧ c = st.m_nodes.length)) ∧
      (∀ i m, nth st.m_nodes i = some m → ∃ m', nth st'.m_nodes i = some m' ∧
        m'.id = m.id ∧ m'.attr = m.attr ∧ m'.data = m.data) := by
  have hinv := reachable_inv hA hr
  have hAid := hA key
  have hid' : (A key).id ≠ CALI_INV_ID := by rw [hAid]; exact hid
  have hns : ¬((A key).store_as_value = true ∧ data.length = 8) := fun hc => by
    rw [hsv] at hc
    cases hc.1
  obtain ⟨hs1, hs2⟩ := @set_refpath st env (A key) data hid' hns
  cases hres : ctxResolve st.m_context env (A key).id with
  | some v =>
    rcases resolve_inv hinv hres with ⟨hsv2, -⟩ | ⟨i, hv, hilt⟩
    · rw [hAid] at hsv2
      rw [hsv] at hsv2
      cases hsv2
    · subst hv
      have hget : st.m_context.get env (A key).id = (true, i) := by
        unfold Context.get
        rw [hres]
        rfl
      obtain ⟨m, hm⟩ := nth_lt hilt
      have hmp : m.parent ≠ .null := by
        rcases hinv.parents hm with h | ⟨j, h, -⟩ <;> simp [h]
      have hseq := hs1 i m hget hm hmp
      have hpp : m.parent = .root ∨ ∃ j, m.parent = .idx j ∧ j < st.m_nodes.length := by
        rcases hinv.parents hm with h | ⟨j, h, hj⟩
        · exact .inl h
        · refine .inr ⟨j, h, ?_⟩
          have := nth_some_lt hm
          omega
      obtain ⟨⟨e, st'⟩, hfin⟩ :
          ∃ r, finishRef env (A key) (findOrCreate st m.parent (A key) data) = some r := by
        unfold finishRef
        exact ⟨_, rfl⟩
      obtain ⟨he, -, ⟨c, n, hentry, hcn, hcid, hcattr, hcdata, hcpar⟩, hpres, -, hcase⟩ :=
        refPath_spec hinv hpp hfin
      refine ⟨e, st', c, n, by rw [hseq]; exact hfin, he, hentry, hcn, hcid,
        by rw [← hAid]; exact hcattr, hcdata, ?_, ?_, ?_⟩
      · refine .inr ⟨i, m, ?_, hm, by rw [hcpar]⟩
        rw [← hAid]
        exact hres
      · rcases hcase with ⟨hnodes, c2, hentry2, hmem⟩ | ⟨hlen, hentry2⟩
        · left
          have hcc : c = c2 :=
            CtxVal.noderef.inj (Option.some.inj (hentry.symm.trans hentry2))
          refine ⟨hnodes, ?_⟩
          rw [hcpar, hcc]
          exact hmem
        · right
          exact ⟨hlen,
            CtxVal.noderef.inj (Option.some.inj (hentry.symm.trans hentry2))⟩
      · intro i2 m2 hm2
        obtain ⟨m', h1, h2, h3, h4, -⟩ := hpres i2 m2 hm2
        exact ⟨m', h1, h2, h3, h4⟩
  | none =>
    have hget : st.m_context.get env (A key).id = (false, 0) := by
      unfold Context.get
      rw [hres]
    have hseq := hs2 hget
    obtain ⟨⟨e, st'⟩, hfin⟩ :
        ∃ r, finishRef env (A key) (findOrCreate st .root (A key) data) = some r := by
      unfold finishRef
      exact ⟨_, rfl⟩
    obtain ⟨he, -, ⟨c, n, hentry, hcn, hcid, hcattr, hcdata, hcpar⟩, hpres, -, hcase⟩ :=
      refPath_spec hinv (.inl rfl) hfin
    refine ⟨e, st', c, n, by rw [hseq]; exact hfin, he, hentry, hcn, hcid,
      by rw [← hAid]; exact hcattr, hcdata, ?_, ?_, ?_⟩
    · refine .inl ⟨?_, hcpar⟩
      rw [← hAid]
      exact hres
    · rcases hcase with ⟨hnodes, c2, hentry2, hmem⟩ | ⟨hlen, hentry2⟩
      · left
        have hcc : c = c2 :=
          CtxVal.noderef.inj (Option.some.inj (hentry.symm.trans hentry2))
        refine ⟨hnodes, ?_⟩
        rw [hcpar, hcc]
        exact hmem
      · right
        exact ⟨hlen,
          CtxVal.noderef.inj (Option.some.inj (hentry.symm.trans hentry2))⟩
    · intro i2 m2 hm2
      obtain ⟨m', h1, h2, h3, h4, -⟩ := hpres i2 m2 hm2
      exact ⟨m', h1, h2, h3, h4⟩

/-- Witness for C6 at the reachable one-node state: set replaces the top
with a sibling of the current node under the root.  -/
theorem C6_set_replaces_top_witness :
    AttrMapWF A_plain ∧ Reachable A_plain c4stB ∧ (1 : Nat) ≠ CALI_INV_ID ∧
    (A_plain 1).store_as_value = false ∧
    (∃ e st' c n,
      CaliperImpl.set c4stB 0 (A_plain 1) [66] = some (e, st') ∧ e = .CALI_SUCCESS ∧
      producedEntry st' 0 (A_plain 1) = some (.noderef c) ∧
      nth st'.m_nodes c = some n ∧ n.id = c ∧ n.attr = 1 ∧ n.data = [66] ∧
      ((ctxResolve c4stB.m_context 0 1 = none ∧ n.parent = .root) ∨
        (∃ i m, ctxResolve c4stB.m_context 0 1 = some (.noderef i) ∧
          nth c4stB.m_nodes i = some m ∧ n.parent = m.parent)) ∧
      ((st'.m_nodes = c4stB.m_nodes ∧ c ∈ childIds c4stB n.parent) ∨
        (st'.m_nodes.length = c4stB.m_nodes.length + 1 ∧ c = c4stB.m_nodes.length)) ∧
      (∀ i m, nth c4stB.m_nodes i = some m → ∃ m', nth st'.m_nodes i = some m' ∧
        m'.id = m.id ∧ m'.attr = m.attr ∧ m'.data = m.data)) := by
  have hre : Reachable A_plain c4stB :=
    @Reachable.stepBegin A_plain c4stA 0 1 [88] .CALI_SUCCESS c4stB
      (@Reachable.stepEnd A_plain _ 0 1 .CALI_SUCCESS c4stA
        (@Reachable.stepBegin A_plain initCaliper 0 1 [88] .CALI_SUCCESS _
          Reachable.init rfl) rfl) rfl
  exact ⟨fun _ => rfl, hre, by decide, rfl,
    C6_set_replaces_top A_plain c4stB 0 1 [66] (fun _ => rfl) hre (by decide) rfl⟩

end Cali

namespace Cali

theorem parentOK_spec {st : CaliperState} {i : Nat} {n : Node}
    (h : parentOKAt st i = true) (hn : nth st.m_nodes i = some n) :
    n.parent = .root ∨ ∃ j, n.parent = .idx j ∧ j < i := by
  unfold parentOKAt at h
  rw [show nodeAt st i = some n from hn] at h
  have h2 : (match n.parent with
    | NPtr.root => true
    | NPtr.idx j => decide (j < i)
    | NPtr.null => false) = true := h
  cases hp : n.parent with
  | root => exact .inl rfl
  | idx j =>
    rw [hp] at h2
    exact .inr ⟨j, rfl, of_decide_eq_true h2⟩
  | null =>
    rw [hp] at h2
    cases h2

theorem entryRefOK_spec {st : CaliperState} {env key : Nat} {v : CtxVal}
    (h : entryRefOK st env key = true) (hres : ctxResolve st.m_context env key = some v) :
    ∃ i, v = .noderef i ∧ i < st.m_nodes.length := by
  unfold entryRefOK at h
  rw [hres] at h
  cases v with
  | scalar x => cases h
  | noderef i => exact ⟨i, rfl, of_decide_eq_true h⟩

theorem InChain_inv {st : CaliperState} {i b : Nat} (h : InChain st i b) :
    b = i ∨ ∃ n j, nth st.m_nodes i = some n ∧ n.parent = .idx j ∧ InChain st j b := by
  cases h with
  | refl => exact .inl rfl
  | step hn hp hc => exact .inr ⟨_, _, hn, hp, hc⟩

theorem InChain_le {st : CaliperState}
    (hpar : ∀ i n, nth st.m_nodes i = some n →
      n.parent = .root ∨ ∃ j, n.parent = .idx j ∧ j < i) :
    ∀ {i b : Nat}, InChain st i b → b ≤ i := by
  intro i b h
  induction h with
  | refl => exact Nat.le_refl _
  | step hn hp hc ih =>
    rename_i i' j' k' n'
    rcases hpar _ _ hn with hr | ⟨j2, hj2, hlt⟩
    · rw [hp] at hr
      cases hr
    · rw [hp] at hj2
      cases hj2
      omega

theorem walkUp_null_eval (nodes : List Node) (key : Nat) (fuel : Nat) :
    walkUp nodes key (fuel + 1) .null = some .null := rfl

theorem walkUp_root_eval (nodes : List Node) (key : Nat) (fuel : Nat)
    (hkey : key ≠ CALI_INV_ID) :
    walkUp nodes key (fuel + 2) .root = some .null := by
  show walkUp nodes key (fuel + 1 + 1) .root = some .null
  rw [walkUp]
  rw [if_neg (fun h => hkey h.symm)]
  exact walkUp_null_eval nodes key fuel

/-- Characterization of the parent-chain walk on a well-formed node vector:
it either stops at the nearest chain member carrying the attribute, or
reaches the null pointer past the root exactly when no chain member
carries it. -/
theorem walkUp_char {st : CaliperState} {key : Nat}
    (hpar : ∀ i n, nth st.m_nodes i = some n →
      n.parent = .root ∨ ∃ j, n.parent = .idx j ∧ j < i)
    (hkey : key ≠ CALI_INV_ID) :
    ∀ i, i < st.m_nodes.length → ∀ fuel, i + 3 ≤ fuel →
      (∃ a na, walkUp st.m_nodes key fuel (.idx i) = some (.idx a) ∧
        InChain st i a ∧ nth st.m_nodes a = some na ∧ na.attr = key ∧
        (∀ b nb, InChain st i b → nth st.m_nodes b = some nb → nb.attr = key →
          InChain st a b)) ∨
      (walkUp st.m_nodes key fuel (.idx i) = some .null ∧
        (∀ b nb, InChain st i b → nth st.m_nodes b = some nb → nb.attr ≠ key)) := by
  intro i
  induction i using Nat.strong_induction_on with
  | _ i ih =>
    intro hilt fuel hfuel
    obtain ⟨f, rfl⟩ : ∃ f, fuel = f + 1 := ⟨fuel - 1, by omega⟩
    obtain ⟨n, hn⟩ := nth_lt hilt
    by_cases hattr : n.attr = key
    · refine .inl ⟨i, n, ?_, InChain.refl i, hn, hattr, fun b nb hb hnb hk => hb⟩
      unfold walkUp
      rw [hn]
      simp [hattr]
    · rcases hpar _ _ hn with hr | ⟨j, hj, hjlt⟩
      · refine .inr ⟨?_, ?_⟩
        · have hstep : walkUp st.m_nodes key (f + 1) (.idx i) =
              walkUp st.m_nodes key f n.parent := by
            rw [walkUp, hn]
            simp [hattr]
          rw [hstep, hr]
          obtain ⟨g, rfl⟩ : ∃ g, f = g + 2 := ⟨f - 2, by omega⟩
          exact walkUp_root_eval _ _ _ hkey
        · intro b nb hb hnb hk
          rcases InChain_inv hb with rfl | ⟨n', j', hn', hp', -⟩
          · rw [hn] at hnb
            cases hnb
            exact hattr hk
          · rw [hn] at hn'
            cases hn'
            rw [hr] at hp'
            cases hp'
      · have hstep : walkUp st.m_nodes key (f + 1) (.idx i) =
            walkUp st.m_nodes key f (.idx j) := by
          rw [walkUp, hn]
          simp [hattr, hj]
        have hjlen : j < st.m_nodes.length := by omega
        rcases ih j hjlt hjlen f (by omega) with
          ⟨a, na, hw, hchain, hna, hnattr, hmin⟩ | ⟨hw, hnone⟩
        · refine .inl ⟨a, na, by rw [hstep]; exact hw,
            InChain.step hn hj hchain, hna, hnattr, ?_⟩
          intro b nb hb hnb hk
          rcases InChain_inv hb with rfl | ⟨n', j', hn', hp', hc'⟩
          · rw [hn] at hnb
            cases hnb
            exact absurd hk hattr
          · rw [hn] at hn'
            cases hn'
            rw [hj] at hp'
            cases hp'
            exact hmin b nb hc' hnb hk
        · refine .inr ⟨by rw [hstep]; exact hw, ?_⟩
          intro b nb hb hnb hk
          rcases InChain_inv hb with rfl | ⟨n', j', hn', hp', hc'⟩
          · rw [hn] at hnb
            cases hnb
            exact hattr hk
          · rw [hn] at hn'
            cases hn'
            rw [hj] at hp'
            cases hp'
            exact hnone b nb hc' hnb hk

end Cali

namespace Cali

/-- Evaluation of end when (env, attr) resolves to nothing: the immediate
CALI_EINV return before taking the read lock. -/
theorem end_noentry {st : CaliperState} {env : Nat} {attr : Attribute}
    (hid : attr.id ≠ CALI_INV_ID) (hsv : attr.store_as_value = false)
    (hget : st.m_context.get env attr.id = (false, 0)) :
    CaliperImpl.end_ st env attr = some (.CALI_EINV, st) := by
  have hsv2 : ¬(attr.store_as_value = true) := by simp [hsv]
  simp only [CaliperImpl.end_, if_neg hid, if_neg hsv2, hget]
  simp

/-- Evaluation of end when the parent-chain walk from the current node c
stops at node index a: the entry is popped to the parent of a. -/
theorem end_walk {st : CaliperState} {env : Nat} {attr : Attribute} {c a : Nat} {na : Node}
    (hid : attr.id ≠ CALI_INV_ID) (hsv : attr.store_as_value = false)
    (hget : st.m_context.get env attr.id = (true, c))
    (hw : walkUp st.m_nodes attr.id (st.m_nodes.length + 3) (.idx c) = some (.idx a))
    (hna : nth st.m_nodes a = some na) :
    (na.parent = .root →
      CaliperImpl.end_ st env attr = some ((st.m_context.unset env attr.id).1,
        { st with m_context := (st.m_context.unset env attr.id).2 })) ∧
    (∀ j pn, na.parent = .idx j → nth st.m_nodes j = some pn →
      CaliperImpl.end_ st env attr = some (.CALI_SUCCESS,
        { st with m_context :=
            (st.m_context.set env attr.id (.noderef pn.id) false).2 })) := by
  have hsv2 : ¬(attr.store_as_value = true) := by simp [hsv]
  constructor
  · intro hp
    simp only [CaliperImpl.end_, if_neg hid, if_neg hsv2, hget, nodeAt]
    simp only [hw, hna, hp, Nat.add_sub_cancel]
    simp
  · intro j pn hp hpn
    simp only [CaliperImpl.end_, if_neg hid, if_neg hsv2, hget, nodeAt]
    simp only [hw, hna, hp, hpn, Nat.add_sub_cancel]
    unfold Context.set
    simp

/-- Evaluation of end when the parent-chain walk runs past the root: the
early CALI_EINV return that keeps the read lock. -/
theorem end_walknull {st : CaliperState} {env : Nat} {attr : Attribute} {c : Nat}
    (hid : attr.id ≠ CALI_INV_ID) (hsv : attr.store_as_value = false)
    (hget : st.m_context.get env attr.id = (true, c))
    (hw : walkUp st.m_nodes attr.id (st.m_nodes.length + 3) (.idx c) = some .null) :
    CaliperImpl.end_ st env attr = some (.CALI_EINV,
      { st with m_nodelock_readers := st.m_nodelock_readers + 1 }) := by
  have hsv2 : ¬(attr.store_as_value = true) := by simp [hsv]
  simp only [CaliperImpl.end_, if_neg hid, if_neg hsv2, hget]
  simp only [hw]
  simp

end Cali

namespace Cali

/-- C5 (amended to non-global attributes; on global attributes end fails
even when an entry exists, see the counterexample): on a well-formed state
— dense ids, parent chains descending to the root, the resolved entry a
reference into the node vector, and no global overlay for the attribute —
end(env, attr) fails with CALI_EINV exactly when attr is the invalid
sentinel, or (env, attr) resolves to nothing, or (for a non-store-as-value
attr) no node on the referenced node's parent chain carries attr;
otherwise, writing a for the nearest chain node carrying attr, it sets
(env, attr) to the id of the parent of a, unsetting the entry instead when
that parent is the root. -/
theorem C5_amended (st : CaliperState) (env : Nat) (attr : Attribute)
    (hids : ∀ i, i < st.m_nodes.length → (nth st.m_nodes i).map Node.id = some i)
    (hpar : ∀ i, i < st.m_nodes.length → parentOKAt st i = true)
    (hloc : attr.store_as_value = false → entryRefOK st env attr.id = true)
    (hglob : lookupA st.m_context.globals attr.id = none) :
    ∃ ret st2, CaliperImpl.end_ st env attr = some (ret, st2) ∧
      (ret = .CALI_EINV ↔
        (attr.id = CALI_INV_ID ∨ ctxResolve st.m_context env attr.id = none ∨
          (attr.store_as_value = false ∧
            ∃ i, ctxResolve st.m_context env attr.id = some (.noderef i) ∧
              ∀ b nb, InChain st i b → nth st.m_nodes b = some nb →
                nb.attr ≠ attr.id))) ∧
      (∀ i, attr.id ≠ CALI_INV_ID → attr.store_as_value = false →
        ctxResolve st.m_context env attr.id = some (.noderef i) →
        ∀ a na, InChain st i a → nth st.m_nodes a = some na → na.attr = attr.id →
        (∀ b nb, InChain st i b → nth st.m_nodes b = some nb → nb.attr = attr.id →
          InChain st a b) →
        (na.parent = .root →
          lookupA st2.m_context.env_local (env, attr.id) = none ∧
          st2.m_context.globals = st.m_context.globals) ∧
        (∀ j, na.parent = .idx j →
          lookupA st2.m_context.env_local (env, attr.id) = some (.noderef j) ∧
          st2.m_context.globals = st.m_context.globals)) := by
  by_cases hid : attr.id = CALI_INV_ID
  · refine ⟨.CALI_EINV, st, ?_, ?_, ?_⟩
    · simp [CaliperImpl.end_, hid]
    · exact ⟨fun _ => .inl hid, fun _ => rfl⟩
    · intro i hne
      exact absurd hid hne
  · by_cases hsv : attr.store_as_value = true
    · cases hel : lookupA st.m_context.env_local (env, attr.id) with
      | some w =>
        have hres : ctxResolve st.m_context env attr.id = some w := by
          unfold ctxResolve
          rw [hel]
        have hueq : st.m_context.unset env attr.id = (.CALI_SUCCESS,
            { st.m_context with
                env_local := delA st.m_context.env_local (env, attr.id) }) := by
          unfold Context.unset
          rw [hel]
        refine ⟨(st.m_context.unset env attr.id).1,
          { st with m_context := (st.m_context.unset env attr.id).2 },
          end_savpath hid hsv, ?_, ?_⟩
        · constructor
          · intro h
            rw [hueq] at h
            exact absurd h (by simp)
          · rintro (h | h | ⟨hsvf, -⟩)
            · exact absurd h hid
            · rw [hres] at h
              cases h
            · rw [hsv] at hsvf
              cases hsvf
        · intro i hne hsvf
          rw [hsv] at hsvf
          cases hsvf
      | none =>
        have hres : ctxResolve st.m_context env attr.id = none := by
          unfold ctxResolve
          rw [hel, hglob]
        have hueq : st.m_context.unset env attr.id = (.CALI_EINV, st.m_context) := by
          unfold Context.unset
          rw [hel]
        refine ⟨(st.m_context.unset env attr.id).1,
          { st with m_context := (st.m_context.unset env attr.id).2 },
          end_savpath hid hsv, ?_, ?_⟩
        · exact ⟨fun _ => .inr (.inl hres), fun _ => by rw [hueq]⟩
        · intro i hne hsvf
          rw [hsv] at hsvf
          cases hsvf
    · have hsvf : attr.store_as_value = false := by
        revert hsv
        cases attr.store_as_value <;> simp
      cases hres : ctxResolve st.m_context env attr.id with
      | none =>
        have hget : st.m_context.get env attr.id = (false, 0) := by
          unfold Context.get
          rw [hres]
        refine ⟨.CALI_EINV, st, end_noentry hid hsvf hget, ?_, ?_⟩
        · exact ⟨fun _ => .inr (.inl rfl), fun _ => rfl⟩
        · intro i hne hsvf2 hres2
          exact Option.noConfusion hres2
      | some v =>
        obtain ⟨i, rfl, hilt⟩ := entryRefOK_spec (hloc hsvf) hres
        have hget : st.m_context.get env attr.id = (true, i) := by
          unfold Context.get
          rw [hres]
          rfl
        have hpar2 : ∀ k n, nth st.m_nodes k = some n →
            n.parent = .root ∨ ∃ j, n.parent = .idx j ∧ j < k :=
          fun k n hn => parentOK_spec (hpar k (nth_some_lt hn)) hn
        rcases walkUp_char hpar2 hid i hilt (st.m_nodes.length + 3) (by omega) with
          ⟨a, na, hw, hchain, hna, hnattr, hmin⟩ | ⟨hw, hnone⟩
        · have hbridge : ∀ {k : Nat} {nk : Node}, nth st.m_nodes k = some nk →
              nk.id = k := by
            intro k nk hk
            have h2 := hids k (nth_some_lt hk)
            rw [hk] at h2
            simpa using h2
          have hEnd := end_walk hid hsvf hget hw hna
          have hel : lookupA st.m_context.env_local (env, attr.id) =
              some (.noderef i) := by
            unfold ctxResolve at hres
            cases hl : lookupA st.m_context.env_local (env, attr.id) with
            | some w =>
              rw [hl] at hres
              cases hres
              rfl
            | none =>
              rw [hl, hglob] at hres
              cases hres
          have hnoFail : ¬(attr.id = CALI_INV_ID ∨
              (some (CtxVal.noderef i) : Option CtxVal) = none ∨
              (attr.store_as_value = false ∧
                ∃ i2, (some (CtxVal.noderef i) : Option CtxVal) = some (.noderef i2) ∧
                  ∀ b nb, InChain st i2 b → nth st.m_nodes b = some nb →
                    nb.attr ≠ attr.id)) := by
            rintro (h | h | ⟨-, i2, hres2, hnone2⟩)
            · exact hid h
            · cases h
            · cases hres2
              exact hnone2 a na hchain hna hnattr
          rcases hpar2 a na hna with hroot | ⟨j, hj, hjlt⟩
          · have hueq : st.m_context.unset env attr.id = (.CALI_SUCCESS,
                { st.m_context with
                    env_local := delA st.m_context.env_local (env, attr.id) }) := by
              unfold Context.unset
              rw [hel]
            refine ⟨(st.m_context.unset env attr.id).1,
              { st with m_context := (st.m_context.unset env attr.id).2 },
              hEnd.1 hroot, ?_, ?_⟩
            · constructor
              · intro h
                rw [hueq] at h
                exact absurd h (by simp)
              · intro h
                exact absurd h hnoFail
            · intro i2 hne hsvf2 hres2 a2 na2 hchain2 hna2 hattr2 hmin2
              cases hres2
              have haa : a = a2 :=
                Nat.le_antisymm (InChain_le hpar2 (hmin2 a na hchain hna hnattr))
                  (InChain_le hpar2 (hmin a2 na2 hchain2 hna2 hattr2))
              subst haa
              rw [hna] at hna2
              cases hna2
              constructor
              · intro hroot2
                constructor
                · rw [hueq]
                  exact lookupA_delA_self _ _
                · rw [hueq]
              · intro j2 hj2
                rw [hroot] at hj2
                cases hj2
          · have hjlen : j < st.m_nodes.length :=
              Nat.lt_of_lt_of_le hjlt (Nat.le_of_lt (Nat.lt_of_le_of_lt
                (InChain_le hpar2 hchain) hilt))
            obtain ⟨pn, hpn⟩ := nth_lt hjlen
            have hpnid : pn.id = j := hbridge hpn
            refine ⟨.CALI_SUCCESS,
              { st with m_context :=
                  (st.m_context.set env attr.id (.noderef pn.id) false).2 },
              hEnd.2 j pn hj hpn, ?_, ?_⟩
            · constructor
              · intro h
                cases h
              · intro h
                exact absurd h hnoFail
            · intro i2 hne hsvf2 hres2 a2 na2 hchain2 hna2 hattr2 hmin2
              cases hres2
              have haa : a = a2 :=
                Nat.le_antisymm (InChain_le hpar2 (hmin2 a na hchain hna hnattr))
                  (InChain_le hpar2 (hmin a2 na2 hchain2 hna2 hattr2))
              subst haa
              rw [hna] at hna2
              cases hna2
              constructor
              · intro hroot2
                rw [hj] at hroot2
                cases hroot2
              · intro j2 hj2
                rw [hj] at hj2
                cases hj2
                constructor
                · rw [Context.set_false]
                  rw [hpnid]
                  exact lookupA_updA_self _ _ _
                · rw [Context.set_false]
        · have hEnd := end_walknull hid hsvf hget hw
          refine ⟨.CALI_EINV,
            { st with m_nodelock_readers := st.m_nodelock_readers + 1 },
            hEnd, ?_, ?_⟩
          · exact ⟨fun _ => .inr (.inr ⟨hsvf, i, rfl, hnone⟩), fun _ => rfl⟩
          · intro i2 hne hsvf2 hres2 a2 na2 hchain2 hna2 hattr2 hmin2
            cases hres2
            exact absurd hattr2 (hnone a2 na2 hchain2 hna2)

end Cali

namespace Cali

/-- Witness state for the amended C5: one node (id 0, attribute 1,
payload "A") under the root, referenced by the (0, 1) entry. -/
def c5wState : CaliperState :=
  { m_nodes := [⟨0, 1, [65], .root, []⟩],
    m_root_children := [0],
    m_context := ⟨[((0, 1), .noderef 0)], []⟩,
    m_nodelock_readers := 0,
    m_env_cb := none }

def c5wAttr : Attribute := ⟨1, false, false⟩

/-- Witness for C5: the amended theorem applied to the one-node state; end
pops the entry (the node's parent is the root, so the entry is unset) and
does not fail. -/
theorem C5_amended_witness :
    ∃ ret st2, CaliperImpl.end_ c5wState 0 c5wAttr = some (ret, st2) ∧
      (ret = .CALI_EINV ↔
        (c5wAttr.id = CALI_INV_ID ∨ ctxResolve c5wState.m_context 0 c5wAttr.id = none ∨
          (c5wAttr.store_as_value = false ∧
            ∃ i, ctxResolve c5wState.m_context 0 c5wAttr.id = some (.noderef i) ∧
              ∀ b nb, InChain c5wState i b → nth c5wState.m_nodes b = some nb →
                nb.attr ≠ c5wAttr.id))) ∧
      (∀ i, c5wAttr.id ≠ CALI_INV_ID → c5wAttr.store_as_value = false →
        ctxResolve c5wState.m_context 0 c5wAttr.id = some (.noderef i) →
        ∀ a na, InChain c5wState i a → nth c5wState.m_nodes a = some na →
          na.attr = c5wAttr.id →
        (∀ b nb, InChain c5wState i b → nth c5wState.m_nodes b = some nb →
          nb.attr = c5wAttr.id → InChain c5wState a b) →
        (na.parent = .root →
          lookupA st2.m_context.env_local (0, c5wAttr.id) = none ∧
          st2.m_context.globals = c5wState.m_context.globals) ∧
        (∀ j, na.parent = .idx j →
          lookupA st2.m_context.env_local (0, c5wAttr.id) = some (.noderef j) ∧
          st2.m_context.globals = c5wState.m_context.globals)) :=
  C5_amended c5wState 0 c5wAttr (by decide) (by decide) (fun _ => by decide) (by decide)

end Cali
